import Mathlib

/-!
# Host-function bridge of the wasm VM (`vm/wasm/exec/env_func.go`)

A shallow embedding of the native functions that `env_func.go` registers for guest
programs, with Go's machine integers as `Int`/`Nat` reduced modulo `2^64` and Go's
run-time panics (out-of-range index or slice expression) as an explicit outcome.
-/

namespace EnvFunc

/-! ## Machine integers -/

/-- Go's conversion `int(x)` of a `uint64` on a 64-bit platform: two's complement. -/
def toInt (x : Nat) : Int :=
  if x % 18446744073709551616 < 9223372036854775808 then (x % 18446744073709551616 : Nat)
  else (x % 18446744073709551616 : Nat) - 18446744073709551616

/-- Wrap-around of a signed 64-bit result (Go `int` arithmetic never traps). -/
def wrapInt (x : Int) : Int :=
  (x + 9223372036854775808) % 18446744073709551616 - 9223372036854775808

/-- Go's conversion `uint64(x)` of an `int`. -/
def toUint64 (x : Int) : Nat := (x % 18446744073709551616).toNat

/-- Go's conversion `uint32(x)` of an `int`. -/
def toUint32 (x : Int) : Nat := (x % 4294967296).toNat

/-! ## Data model -/

/-- A byte of the heap. -/
abbrev Byte := Fin 256

/-- Modelled from the spec: the element-type tag of a region (section 3, "Element Type");
its Go declaration is not part of `env_func.go`. -/
inductive ElemType where
  | Int8 | Int16 | Int32 | Int64 | Float32 | Float64 | String | Unknown
  deriving DecidableEq, Repr

/-- Modelled from the spec: the Region Descriptor `typeInfo{Type, Len}` (section 3); `Typ` is its field `Type`. -/
structure typeInfo where
  Typ : ElemType
  Len : Int
  deriving DecidableEq, Repr

/-- Modelled from the spec: the heap, a byte buffer (`vm.memory`) and the side table of
Region Descriptors (`vm.memType`, keyed by base address), together with the allocation
pointer that only the allocator uses. -/
structure Heap where
  memory : List Byte
  memType : List (Nat × typeInfo)
  allocPtr : Nat
  deriving DecidableEq, Repr

/-- Modelled from the spec: the saved continuation (`context`), of which the bridge only
uses the operand stack; `frame` stands for everything else. -/
structure context where
  stack : List Nat
  frame : Nat
  deriving DecidableEq, Repr

/-- The per-call scratch fields of `EnvFunc` (the dispatch map is kept apart). -/
structure CallFrame where
  envFuncCtx : context
  envFuncParam : List Nat
  envFuncRtn : Bool
  envFuncParamIdx : Int
  deriving DecidableEq, Repr

/-- The part of `VM` that `env_func.go` touches. -/
structure VM where
  heap : Heap
  ctx : context
  envFunc : CallFrame
  deriving DecidableEq, Repr

/-- What a handler call does: it returns `(bool, error)` leaving the VM in some state, or
the Go run time panics (state at the moment of the panic). -/
inductive Outcome where
  | ret (consumed : Bool) (err : Option String) (vm : VM)
  | panic (vm : VM)
  deriving DecidableEq, Repr

/-- Return `(true, nil)`. -/
abbrev Outcome.ok (vm : VM) : Outcome := .ret true none vm

/-- Return `(false, errors.New(msg))`. -/
abbrev Outcome.error (msg : String) (vm : VM) : Outcome := .ret false (some msg) vm

/-- Modelled from the spec: `vm.pushUint64`, the operand-stack push (section 6). -/
def pushUint64 (vm : VM) (n : Nat) : VM :=
  { vm with ctx := { vm.ctx with stack := vm.ctx.stack ++ [n] } }

/-- The common tail of the handlers: `vm.ctx = envFunc.envFuncCtx` and, when
`envFunc.envFuncRtn`, `vm.pushUint64(result)`. -/
def restoreAndPush (vm : VM) (result : Nat) : VM :=
  let vm1 := { vm with ctx := vm.envFunc.envFuncCtx }
  if vm.envFunc.envFuncRtn then pushUint64 vm1 result else vm1

/-! ## Go slices -/

/-- The slice expression `s[lo:hi]` of Go on a slice whose capacity is its length;
`none` is the run-time panic "slice bounds out of range". -/
def slice {α : Type} (s : List α) (lo hi : Int) : Option (List α) :=
  if 0 ≤ lo ∧ lo ≤ hi ∧ hi ≤ (s.length : Int) then
    some ((s.drop lo.toNat).take (hi.toNat - lo.toNat))
  else none

/-- Go's builtin `copy(dst, src)`: the new contents of `dst` after the first
`min(len(dst), len(src))` elements were overwritten. -/
def goCopy {α : Type} (dst src : List α) : List α :=
  src.take dst.length ++ dst.drop src.length

/-- Write the window `[lo, lo + len(win))` of a buffer back. -/
def setWindow {α : Type} (mem : List α) (lo : Nat) (win : List α) : List α :=
  mem.take lo ++ win ++ mem.drop (lo + win.length)

/-! ## Raw memory operations -/

/-- The handler `memcpy` (lines 158-183). -/
def memcpy (vm : VM) : Outcome :=
  match vm.envFunc.envFuncParam with
  | [p0, p1, p2] =>
    let dest := toInt p0
    let src := toInt p1
    let length := toInt p2
    if dest < src ∧ wrapInt (dest + length) > src then
      .error "memcpy overlapped" vm
    else
      match slice vm.heap.memory dest (wrapInt (dest + length)),
            slice vm.heap.memory src (wrapInt (src + length)) with
      | some d, some s =>
        let mem := setWindow vm.heap.memory dest.toNat (goCopy d s)
        .ok (restoreAndPush { vm with heap := { vm.heap with memory := mem } } 1)
      | _, _ => .panic vm
  | _ => .error "parameter count error while call memcpy" vm

/-! ## What the bridge calls but does not define -/

/-- The dynamic argument of `vm.StorageData(interface{})`, by the Go types passed to it. -/
inductive Data where
  | bytes (b : List Byte)
  | ints (a : List Int)
  | int64s (a : List Int)
  | str (s : String)
  deriving DecidableEq, Repr

/-- Modelled from the spec: one Parameter Descriptor `{type, val}` (section 6);
`Typ` is its field `Type`. -/
structure Param where
  Typ : String
  Val : String
  deriving DecidableEq, Repr

/-- Modelled from the spec: the Result Descriptor `{type, val}` (section 6). -/
structure Rtn where
  Typ : String
  Val : String
  deriving DecidableEq, Repr

/-- The VM methods and library functions that `env_func.go` calls and that are declared
elsewhere: the allocator `vm.getStoragePos`, the region fetch `vm.GetData`, the store
`vm.StorageData`, `json.Unmarshal` into a `ParamList`, `json.Marshal` of a `Rtn`, and
`strings.ToLower`.  They are parameters of the handlers.  The allocator and the store act
on the heap alone and return the heap they leave; the fetch only reads it. -/
structure Host where
  getStoragePos : Heap → Int → ElemType → Except String (Int × Heap)
  GetData : Heap → Nat → Except String (List Byte)
  StorageData : Heap → Data → Except String (Int × Heap)
  jsonUnmarshal : List Byte → Except String (List Param)
  jsonMarshal : Rtn → Except String String
  ToLower : String → String

/-! ## Allocation entry points -/

/-- The handler `calloc` (lines 65-88). -/
def calloc (H : Host) (vm : VM) : Outcome :=
  match vm.envFunc.envFuncParam with
  | [p0, p1] =>
    let count := toInt p0
    let length := toInt p1
    match H.getStoragePos vm.heap (wrapInt (count * length)) ElemType.Unknown with
    | .error e => .error e vm
    | .ok (index, heap1) => .ok (restoreAndPush { vm with heap := heap1 } (toUint64 index))
  | _ => .error "*ERROR* Invalid parameter count during call calloc !!! " vm

/-- The handler `malloc` (lines 91-112). -/
def malloc (H : Host) (vm : VM) : Outcome :=
  match vm.envFunc.envFuncParam with
  | [p0] =>
    let size := toInt p0
    match H.getStoragePos vm.heap size ElemType.Unknown with
    | .error e => .error e vm
    | .ok (index, heap1) => .ok (restoreAndPush { vm with heap := heap1 } (toUint64 index))
  | _ => .error "parameter count error while call calloc" vm

/-- The `result` that `arrayLen` computes from the descriptor lookup (lines 125-147);
Go's `/` on `int` truncates toward zero. -/
def arrayLenResult (tl : Option typeInfo) : Nat :=
  match tl with
  | some t =>
    match t.Typ with
    | .Int8 | .String => toUint64 (Int.tdiv t.Len 1)
    | .Int16 => toUint64 (Int.tdiv t.Len 2)
    | .Int32 | .Float32 => toUint64 (Int.tdiv t.Len 4)
    | .Int64 | .Float64 => toUint64 (Int.tdiv t.Len 8)
    | .Unknown => toUint64 (Int.tdiv t.Len 1)
  | none => 0

/-- The handler `arrayLen` (lines 115-156). -/
def arrayLen (vm : VM) : Outcome :=
  match vm.envFunc.envFuncParam with
  | [pointer] =>
    let tl := vm.heap.memType.lookup pointer
    .ok (restoreAndPush vm (arrayLenResult tl))
  | _ => .error "parameter count error while call arrayLen" vm

/-! ## Little-endian fields (`encoding/binary`) -/

/-- `binary.LittleEndian.Uint16(b)`; `none` is the panic on `len(b) < 2`. -/
def Uint16 (b : List Byte) : Option Nat :=
  match b with
  | b0 :: b1 :: _ => some (b0.val + b1.val * 256)
  | _ => none

/-- `binary.LittleEndian.Uint32(b)`; `none` is the panic on `len(b) < 4`. -/
def Uint32 (b : List Byte) : Option Nat :=
  match b with
  | b0 :: b1 :: b2 :: b3 :: _ =>
    some (b0.val + b1.val * 256 + b2.val * 65536 + b3.val * 16777216)
  | _ => none

/-- `binary.LittleEndian.Uint64(b)`; `none` is the panic on `len(b) < 8`. -/
def Uint64 (b : List Byte) : Option Nat :=
  match b with
  | b0 :: b1 :: b2 :: b3 :: b4 :: b5 :: b6 :: b7 :: _ =>
    some (b0.val + b1.val * 256 + b2.val * 65536 + b3.val * 16777216
      + b4.val * 4294967296 + b5.val * 1099511627776 + b6.val * 281474976710656
      + b7.val * 72057594037927936)
  | _ => none

/-- `binary.LittleEndian.PutUint32(tmp, v)` on a fresh 4-byte `tmp`. -/
def PutUint32 (v : Nat) : List Byte :=
  [Fin.ofNat v, Fin.ofNat (v / 256), Fin.ofNat (v / 65536), Fin.ofNat (v / 16777216)]

/-- `binary.LittleEndian.PutUint64(tmp, v)` on a fresh 8-byte `tmp`. -/
def PutUint64 (v : Nat) : List Byte :=
  [Fin.ofNat v, Fin.ofNat (v / 256), Fin.ofNat (v / 65536), Fin.ofNat (v / 16777216),
   Fin.ofNat (v / 4294967296), Fin.ofNat (v / 1099511627776),
   Fin.ofNat (v / 281474976710656), Fin.ofNat (v / 72057594037927936)]

/-! ## Sequential parameter stream reader -/

/-- The handler `readInt32Param` (lines 221-249). -/
def readInt32Param (H : Host) (vm : VM) : Outcome :=
  match vm.envFunc.envFuncParam with
  | [addr] =>
    match H.GetData vm.heap addr with
    | .error e => .error e vm
    | .ok paramBytes =>
      let pidx := vm.envFunc.envFuncParamIdx
      if wrapInt (pidx + 4) > (paramBytes.length : Int) then
        .error "read params error" vm
      else
        match (slice paramBytes pidx (wrapInt (pidx + 4))).bind Uint32 with
        | none => .panic vm
        | some retInt =>
          let vm1 := { vm with envFunc := { vm.envFunc with envFuncParamIdx := wrapInt (pidx + 4) } }
          .ok (restoreAndPush vm1 retInt)
  | _ => .error "parameter count error while call readInt32Param" vm

/-- The handler `readInt64Param` (lines 251-279). -/
def readInt64Param (H : Host) (vm : VM) : Outcome :=
  match vm.envFunc.envFuncParam with
  | [addr] =>
    match H.GetData vm.heap addr with
    | .error e => .error e vm
    | .ok paramBytes =>
      let pidx := vm.envFunc.envFuncParamIdx
      if wrapInt (pidx + 8) > (paramBytes.length : Int) then
        .error "read params error" vm
      else
        match (slice paramBytes pidx (wrapInt (pidx + 8))).bind Uint64 with
        | none => .panic vm
        | some retInt =>
          let vm1 := { vm with envFunc := { vm.envFunc with envFuncParamIdx := wrapInt (pidx + 8) } }
          .ok (restoreAndPush vm1 retInt)
  | _ => .error "parameter count error while call readInt64Param" vm

/-- The index expression `s[i]` of Go; `none` is the panic "index out of range". -/
def index {α : Type} (s : List α) (i : Int) : Option α :=
  if 0 ≤ i ∧ i < (s.length : Int) then s.get? i.toNat else none

/-- How a fragment of a handler ends: with a value, with an early `return false, err`,
or with a panic. -/
inductive Step (α : Type) where
  | val (a : α)
  | fail (msg : String)
  | panic
  deriving DecidableEq, Repr

/-- One length field of `readStringParam`: the bound check `pidx+w > len(paramBytes)`,
then `Uint16(paramBytes[pidx+1 : pidx+w])` and `pidx += w`. -/
def lengthField (paramBytes : List Byte) (pidx w : Int) : Step (Int × Int) :=
  if wrapInt (pidx + w) > (paramBytes.length : Int) then .fail "read string failed"
  else
    match (slice paramBytes (wrapInt (pidx + 1)) (wrapInt (pidx + w))).bind Uint16 with
    | none => .panic
    | some n => .val ((n : Int), wrapInt (pidx + w))

/-- The `switch paramBytes[pidx]` of `readStringParam` (lines 297-318): the decoded
`length` and the advanced `pidx`. -/
def stringHeader (paramBytes : List Byte) (pidx : Int) : Step (Int × Int) :=
  match index paramBytes pidx with
  | none => .panic
  | some tag =>
    if tag.val = 0xfd then lengthField paramBytes pidx 3
    else if tag.val = 0xfe then lengthField paramBytes pidx 5
    else if tag.val = 0xff then lengthField paramBytes pidx 9
    else .val ((tag.val : Int), pidx)

/-- The handler `readStringParam` (lines 281-338). -/
def readStringParam (H : Host) (vm : VM) : Outcome :=
  match vm.envFunc.envFuncParam with
  | [addr] =>
    match H.GetData vm.heap addr with
    | .error e => .error e vm
    | .ok paramBytes =>
      match stringHeader paramBytes vm.envFunc.envFuncParamIdx with
      | .panic => .panic vm
      | .fail msg => .error msg vm
      | .val (length, pidx0) =>
        if wrapInt (pidx0 + length) > (paramBytes.length : Int) then
          .error "read string failed" vm
        else
          let pidx := wrapInt (pidx0 + wrapInt (length + 1))
          match slice paramBytes (wrapInt (vm.envFunc.envFuncParamIdx + 1)) pidx with
          | none => .panic vm
          | some stringbytes =>
            match H.StorageData vm.heap (Data.bytes stringbytes) with
            | .error _ => .error "set memory failed" vm
            | .ok (retidx, heap1) =>
              let vm1 := { vm with heap := heap1,
                                   envFunc := { vm.envFunc with envFuncParamIdx := pidx } }
              .ok (restoreAndPush vm1 (toUint64 retidx))
  | _ => .error "parameter count error while call readStringParam" vm

/-! ## Decimal text (`strconv`, `strings`) -/

/-- The value of a decimal digit, `none` for any other character. -/
def digitValue (c : Char) : Option Nat :=
  if 48 ≤ c.toNat ∧ c.toNat ≤ 57 then some (c.toNat - 48) else none

/-- The digit loop of `strconv.ParseUint(s, 10, 64)`: a character that is no digit is a
syntax error, an accumulated value above `2^64 - 1` a range error, whichever comes first. -/
def parseUint (acc : Nat) : List Char → Except String Nat
  | [] => .ok acc
  | c :: cs =>
    match digitValue c with
    | none => .error "invalid syntax"
    | some d =>
      if acc * 10 + d > 18446744073709551615 then .error "value out of range"
      else parseUint (acc * 10 + d) cs

/-- The signed decimal parser shared by `strconv.ParseInt(s, 10, 64)` and `strconv.Atoi`
(Go's `int` has 64 bits): an optional sign, at least one digit, the value within
`[-2^63, 2^63)`.  The error carries the kind of failure; the quoting of the input in
Go's message is left out. -/
def parseSigned (fn : String) (s : String) : Except String Int :=
  match s.toList with
  | [] => .error (fn ++ ": invalid syntax")
  | c :: cs =>
    let neg : Bool := c = '-'
    let ds := if c = '+' ∨ c = '-' then cs else c :: cs
    if ds = [] then .error (fn ++ ": invalid syntax")
    else
      match parseUint 0 ds with
      | .error e => .error (fn ++ ": " ++ e)
      | .ok n =>
        if neg then
          if n > 9223372036854775808 then .error (fn ++ ": value out of range")
          else .ok (-(n : Int))
        else if n ≥ 9223372036854775808 then .error (fn ++ ": value out of range")
        else .ok (n : Int)

/-- `strconv.Atoi(s)`. -/
def Atoi (s : String) : Except String Int := parseSigned "strconv.Atoi" s

/-- `strconv.ParseInt(s, 10, 64)`. -/
def ParseInt (s : String) : Except String Int := parseSigned "strconv.ParseInt" s

/-- The digits of `strconv.FormatUint(n, 10)`, most significant first. -/
def formatUint (n : Nat) : List Char := Nat.toDigits 10 n

/-- `strconv.FormatInt(v, 10)`, which is also `strconv.Itoa(v)`. -/
def FormatInt (v : Int) : String :=
  if v < 0 then String.mk ('-' :: formatUint v.natAbs) else String.mk (formatUint v.natAbs)

/-- The pieces of a text between commas. -/
def splitComma : List Char → List (List Char)
  | [] => [[]]
  | c :: cs =>
    if c = ',' then [] :: splitComma cs
    else
      match splitComma cs with
      | [] => [[c]]
      | piece :: rest => (c :: piece) :: rest

/-- `strings.Split(s, ",")`. -/
def Split (s : String) : List String := (splitComma s.toList).map String.mk

/-- The loop `for i, str := range arr { tmparr[i], err = parse(str) ... }`: the parsed
elements, or the error of the first element that does not parse. -/
def parseEach (parse : String → Except String Int) : List String → Except String (List Int)
  | [] => .ok []
  | str :: rest =>
    match parse str with
    | .error e => .error e
    | .ok v =>
      match parseEach parse rest with
      | .error e => .error e
      | .ok vs => .ok (v :: vs)

/-! ## Generic structured unmarshal -/

/-- One turn of the loop of `jsonUnmashal` (lines 388-453): the bytes written to `buff`
and the heap after the turn, or the error the handler returns from inside the loop. -/
def encodeParam (H : Host) (heap : Heap) (param : Param) : Except String (Heap × List Byte) :=
  let tag := H.ToLower param.Typ
  if tag = "int" then
    match Atoi param.Val with
    | .error e => .error e
    | .ok val => .ok (heap, PutUint32 (toUint32 val))
  else if tag = "int64" then
    match ParseInt param.Val with
    | .error e => .error e
    | .ok val => .ok (heap, PutUint64 (toUint64 val))
  else if tag = "int_array" then
    match parseEach Atoi (Split param.Val) with
    | .error e => .error e
    | .ok tmparr =>
      match H.StorageData heap (Data.ints tmparr) with
      | .error e => .error e
      | .ok (idx, heap1) => .ok (heap1, PutUint32 (toUint32 idx))
  else if tag = "int64_array" then
    match parseEach ParseInt (Split param.Val) with
    | .error e => .error e
    | .ok tmparr =>
      match H.StorageData heap (Data.int64s tmparr) with
      | .error e => .error e
      | .ok (idx, heap1) => .ok (heap1, PutUint64 (toUint64 idx))
  else if tag = "string" then
    match H.StorageData heap (Data.str param.Val) with
    | .error e => .error e
    | .ok (idx, heap1) => .ok (heap1, PutUint32 (toUint32 idx))
  else .error ("unsupported type :" ++ param.Typ)

/-- The loop `for _, param := range paramList.Params` of `jsonUnmashal`, started with the
heap and the contents of `buff`: the heap when the loop is left, and either the final
contents of `buff` or the error returned from inside the loop. -/
def encodeParams (H : Host) : Heap → List Byte → List Param → Heap × Except String (List Byte)
  | heap, buff, [] => (heap, .ok buff)
  | heap, buff, param :: rest =>
    match encodeParam H heap param with
    | .error e => (heap, .error e)
    | .ok (heap1, field) => encodeParams H heap1 (buff ++ field) rest

/-- The handler `jsonUnmashal` (lines 361-472).  `size`, the second argument, is read
and then only compared in an `if` with an empty body (lines 458-461). -/
def jsonUnmashal (H : Host) (vm : VM) : Outcome :=
  match vm.envFunc.envFuncParam with
  | [addr, _size, jsonaddr] =>
    match H.GetData vm.heap jsonaddr with
    | .error e => .error e vm
    | .ok jsonbytes =>
      match H.jsonUnmarshal jsonbytes with
      | .error e => .error e vm
      | .ok paramList =>
        match encodeParams H vm.heap [] paramList with
        | (heap1, .error e) => .error e { vm with heap := heap1 }
        | (heap1, .ok bytes) =>
          let vm1 := { vm with heap := heap1 }
          if wrapInt (toInt addr + (bytes.length : Int)) > (heap1.memory.length : Int) then
            .error "out of memory" vm1
          else
            match slice heap1.memory (toInt addr) (wrapInt (toInt addr + (bytes.length : Int))) with
            | none => .panic vm1
            | some d =>
              let mem := setWindow heap1.memory (toInt addr).toNat (goCopy d bytes)
              .ok { vm1 with heap := { heap1 with memory := mem }, ctx := vm.envFunc.envFuncCtx }
  | _ => .error "parameter count error while call jsonUnmashal" vm

/-! ## String comparison and generic marshal -/

/-- Go's conversion `string(b)` of a byte slice; each byte is kept as the character with
that code, so two conversions are equal exactly when the byte slices are. -/
def goString (b : List Byte) : String := String.mk (b.map fun x => Char.ofNat x.val)

/-- The bytes `bytes[:i]` for the first `i` with `bytes[i] == 0`, all of `bytes` when there
is none: the loop of `trimBuffToString` (lines 592-597) before the conversion. -/
def untilZero : List Byte → List Byte
  | [] => []
  | b :: bs => if b = 0 then [] else b :: untilZero bs

/-- The function `trimBuffToString` (lines 590-599). -/
def trimBuffToString (bytes : List Byte) : String := goString (untilZero bytes)

/-- The handler `stringcmp`, registered as `strcmp` (lines 552-588). -/
def stringcmp (H : Host) (vm : VM) : Outcome :=
  match vm.envFunc.envFuncParam with
  | [addr1, addr2] =>
    if addr1 = addr2 then .ok (restoreAndPush vm (toUint64 0))
    else
      match H.GetData vm.heap addr1 with
      | .error e => .error e vm
      | .ok bytes1 =>
        match H.GetData vm.heap addr2 with
        | .error e => .error e vm
        | .ok bytes2 =>
          let ret : Int := if trimBuffToString bytes1 = trimBuffToString bytes2 then 0 else 1
          .ok (restoreAndPush vm (toUint64 ret))
  | _ => .error "parameter count error while call strcmp" vm

/-- The handler `rawUnmashal` (lines 340-359); the low bound of its slice expression is
the `uint64` argument itself. -/
def rawUnmashal (H : Host) (vm : VM) : Outcome :=
  match vm.envFunc.envFuncParam with
  | [pos, _, rawAddr] =>
    match H.GetData vm.heap rawAddr with
    | .error e => .error e vm
    | .ok rawBytes =>
      match slice vm.heap.memory ((pos % 18446744073709551616 : Nat) : Int)
          (wrapInt (toInt pos + (rawBytes.length : Int))) with
      | none => .panic vm
      | some d =>
        let mem := setWindow vm.heap.memory (pos % 18446744073709551616) (goCopy d rawBytes)
        .ok { vm with heap := { vm.heap with memory := mem } }
  | _ => .error "parameter count error while call jsonUnmashal" vm

/-- All values of a list of partial results, `none` when one of them is `none`. -/
def allSome {α : Type} : List (Option α) → Option (List α)
  | [] => some []
  | none :: _ => none
  | some a :: rest =>
    match allSome rest with
    | none => none
    | some as => some (a :: as)

/-- `strings.Join(a, ",")`. -/
def Join : List String → String
  | [] => ""
  | [s] => s
  | s :: rest => s ++ "," ++ Join rest

/-- The loop `for i := 0; i < length; i++` of `jsonMashal` for `int_array` (lines
514-518): element `i` is decoded from `tmp[i : i+4]`; `none` is a panic. -/
def intArrayElems (tmp : List Byte) : Option (List Nat) :=
  allSome ((List.range (tmp.length / 4)).map fun i =>
    (slice tmp (i : Int) (wrapInt ((i : Int) + 4))).bind Uint32)

/-- The loop of `jsonMashal` for `int64_array` (lines 526-530): element `i` is decoded
from `tmp[i : i+8]`; `none` is a panic. -/
def int64ArrayElems (tmp : List Byte) : Option (List Nat) :=
  allSome ((List.range (tmp.length / 8)).map fun i =>
    (slice tmp (i : Int) (wrapInt ((i : Int) + 8))).bind Uint64)

/-- The `switch pstype` of `jsonMashal` (lines 490-532): the Result Descriptor built
from the operand `val` and the lower-cased tag. -/
def marshalRtn (H : Host) (heap : Heap) (val : Nat) (pstype : String) : Step Rtn :=
  if pstype = "int" then .val ⟨pstype, FormatInt (toInt val)⟩
  else if pstype = "int64" then .val ⟨pstype, FormatInt (toInt val)⟩
  else if pstype = "string" then
    match H.GetData heap val with
    | .error e => .fail e
    | .ok tmp => .val ⟨pstype, goString tmp⟩
  else if pstype = "int_array" then
    match H.GetData heap val with
    | .error e => .fail e
    | .ok tmp =>
      match intArrayElems tmp with
      | none => .panic
      | some elems => .val ⟨pstype, Join (elems.map fun v => FormatInt (v : Int))⟩
  else if pstype = "int64_array" then
    match H.GetData heap val with
    | .error e => .fail e
    | .ok tmp =>
      match int64ArrayElems tmp with
      | none => .panic
      | some elems => .val ⟨pstype, Join (elems.map fun v => FormatInt (toInt v))⟩
  else .val ⟨pstype, ""⟩

/-- The handler `jsonMashal` (lines 474-550). -/
def jsonMashal (H : Host) (vm : VM) : Outcome :=
  match vm.envFunc.envFuncParam with
  | [val, ptype] =>
    match H.GetData vm.heap ptype with
    | .error e => .error e vm
    | .ok tpstr =>
      match marshalRtn H vm.heap val (H.ToLower (trimBuffToString tpstr)) with
      | .panic => .panic vm
      | .fail e => .error e vm
      | .val ret =>
        match H.jsonMarshal ret with
        | .error e => .error e vm
        | .ok jsonstr =>
          match H.StorageData vm.heap (Data.str jsonstr) with
          | .error e => .error e vm
          | .ok (offset, heap1) =>
            .ok (restoreAndPush { vm with heap := heap1 } (toUint64 offset))
  | _ => .error "parameter count error while call jsonUnmashal" vm

/-! ## Dispatch registry -/

/-- A registered native function, `func(vm *VM) (bool, error)`. -/
abbrev Handler := VM → Outcome

/-- The map `envFuncMap` from import names to handlers. -/
abbrev FuncMap := String → Option Handler

/-- The method `Register` (lines 45-49), on the map it updates. -/
def Register (envFuncMap : FuncMap) (method : String) (handler : Handler) : FuncMap :=
  match envFuncMap method with
  | some _ => envFuncMap
  | none => fun m => if m = method then some handler else envFuncMap m

/-- The method `Invoke` (lines 51-59). -/
def Invoke (envFuncMap : FuncMap) (method : String) (vm : VM) : Outcome :=
  match envFuncMap method with
  | none => .error ("*ERROR* Failed to find method : " ++ method) vm
  | some fc => fc vm

/-- The map that `NewEnvFunc` builds (lines 23-43). -/
def NewEnvFunc (H : Host) : FuncMap :=
  let m0 : FuncMap := fun _ => none
  let m1 := Register m0 "calloc" (calloc H)
  let m2 := Register m1 "strcmp" (stringcmp H)
  let m3 := Register m2 "malloc" (malloc H)
  let m4 := Register m3 "arrayLen" arrayLen
  let m5 := Register m4 "memcpy" memcpy
  let m6 := Register m5 "ReadInt32Param" (readInt32Param H)
  let m7 := Register m6 "ReadInt64Param" (readInt64Param H)
  let m8 := Register m7 "ReadStringParam" (readStringParam H)
  let m9 := Register m8 "RawUnmashal" (rawUnmashal H)
  let m10 := Register m9 "JsonUnmashal" (jsonUnmashal H)
  Register m10 "JsonMashal" (jsonMashal H)

/-! ## A concrete host, for evaluating the handlers -/

/-- Modelled from the spec: `allocate(size, elementType)` of section 4.2 as a bump
allocator: `InvalidSize` when `size <= 0`, otherwise the region starts at the allocation
pointer, the buffer grows as needed and the descriptor is recorded. -/
def bumpAllocate (heap : Heap) (size : Int) (t : ElemType) : Except String (Int × Heap) :=
  if size ≤ 0 then .error "invalid size"
  else
    let base := heap.allocPtr
    let grown := heap.memory ++ List.replicate (base + size.toNat - heap.memory.length) (0 : Byte)
    .ok ((base : Int), { memory := grown, memType := (base, ⟨t, size⟩) :: heap.memType,
                         allocPtr := base + size.toNat })

/-- Modelled from the spec: `fetchRegion(address)` of section 6, the bytes of the tracked
region at `address`. -/
def fetchRegion (heap : Heap) (address : Nat) : Except String (List Byte) :=
  match heap.memType.lookup address with
  | none => .error "unknown address"
  | some t => .ok ((heap.memory.drop address).take t.Len.toNat)

/-- Allocate a byte-typed region and fill it with `bs`. -/
def storeBytes (heap : Heap) (bs : List Byte) : Except String (Int × Heap) :=
  match bumpAllocate heap (bs.length : Int) ElemType.Unknown with
  | .error e => .error e
  | .ok (base, heap1) =>
    .ok (base, { heap1 with memory := setWindow heap1.memory base.toNat bs })

/-- The bytes a concrete host stores for each kind of `Data`: integers as 8-byte
little-endian words, text by its character codes. -/
def dataBytes : Data → List Byte
  | .bytes b => b
  | .ints a => (a.map fun v => PutUint64 (toUint64 v)).flatten
  | .int64s a => (a.map fun v => PutUint64 (toUint64 v)).flatten
  | .str s => s.toList.map fun c => Fin.ofNat c.toNat

/-- A concrete host: the bump allocator, the region fetch, a JSON codec that knows no
document, and ASCII lower-casing. -/
def demoHost : Host where
  getStoragePos := bumpAllocate
  GetData := fetchRegion
  StorageData := fun heap d => storeBytes heap (dataBytes d)
  jsonUnmarshal := fun _ => .error "unexpected end of JSON input"
  jsonMarshal := fun _ => .error "unsupported value"
  ToLower := fun s => String.mk (s.toList.map Char.toLower)

/-- The empty continuation. -/
def ctx0 : context := { stack := [], frame := 0 }

/-- A VM whose heap is the given byte buffer with the given descriptors, called with
the given arguments and cursor; a return value is expected. -/
def vmWith (memory : List Byte) (memType : List (Nat × typeInfo)) (params : List Nat)
    (cursor : Int) : VM :=
  { heap := { memory := memory, memType := memType, allocPtr := memory.length },
    ctx := { stack := [], frame := 1 },
    envFunc := { envFuncCtx := ctx0, envFuncParam := params, envFuncRtn := true,
                 envFuncParamIdx := cursor } }

/-- A parameter stream holding one string in the `0xfd` form: the tag, the length 130
as a 2-byte little-endian field, 130 content bytes `a`, and the terminator. -/
def stream130 : List Byte := 0xfd :: 130 :: 0 :: (List.replicate 130 97 ++ [0])

/-- The unsigned integer whose base-256 digits, least significant first, are the given
bytes: the value the spec calls "little-endian". -/
def littleEndian : List Byte → Nat
  | [] => 0
  | b :: bs => b.val + 256 * littleEndian bs

/-- The element width the spec assigns to each element type (section 4.2). -/
def elementWidth : ElemType → Nat
  | .Int8 | .String | .Unknown => 1
  | .Int16 => 2
  | .Int32 | .Float32 => 4
  | .Int64 | .Float64 => 8

/-- The `w` least significant base-256 digits of `n`, least significant first. -/
def leDigits : Nat → Nat → List Byte
  | 0, _ => []
  | w + 1, n => Fin.ofNat n :: leDigits w (n / 256)

/-- The `w`-byte little-endian two's-complement encoding of a signed value, as the spec
words it: the little-endian digits of the value modulo `256^w`. -/
def twosComplementLE (w : Nat) (v : Int) : List Byte :=
  leDigits w (v % ((256 ^ w : Nat) : Int)).toNat

/-- A scalar parameter as the spec describes it: a 32-bit `int` or a 64-bit `int64`. -/
inductive Scalar where
  | int (v : Int)
  | int64 (v : Int)
  deriving DecidableEq, Repr

/-- The field the spec prescribes for a scalar: 4 bytes for `int`, 8 for `int64`. -/
def Scalar.field : Scalar → List Byte
  | .int v => twosComplementLE 4 v
  | .int64 v => twosComplementLE 8 v

/-- The width of the field of a scalar. -/
def Scalar.width : Scalar → Nat
  | .int _ => 4
  | .int64 _ => 8

/-- A descriptor describes a scalar when its tag is `int` or `int64` up to letter case
and its `val` is the decimal rendering of a value of that range. -/
def Scalar.describedBy (H : Host) (p : Param) : Scalar → Prop
  | .int v => H.ToLower p.Typ = "int" ∧ -2147483648 ≤ v ∧ v < 2147483648 ∧
      p.Val = FormatInt v
  | .int64 v => H.ToLower p.Typ = "int64" ∧ -9223372036854775808 ≤ v ∧
      v < 9223372036854775808 ∧ p.Val = FormatInt v

/-- The concrete host with a JSON decoder that yields the given descriptor list for
every document. -/
def demoHostWith (params : List Param) : Host :=
  { demoHost with jsonUnmarshal := fun _ => .ok params }

/-- A VM with a 16-byte heap whose first two bytes are a tracked region (the schema
document), called as `jsonUnmashal(4, 12, 0)`. -/
def vmScalars : VM :=
  vmWith (List.replicate 16 0) [(0, ⟨ElemType.Unknown, 2⟩)] [4, 12, 0] 0

/-- A descriptor list of one `int` and one `int64`, with tags in mixed case. -/
def scalarParams : List Param := [⟨"INT", "-2"⟩, ⟨"Int64", "258"⟩]

/-- The type tags `jsonUnmashal` has a case for. -/
def supportedTags : List String := ["int", "int64", "int_array", "int64_array", "string"]

/-- The heaps that arise from a heap by stores of the host (`vm.StorageData`) alone. -/
inductive StoredFrom (H : Host) : Heap → Heap → Prop where
  | refl (heap : Heap) : StoredFrom H heap heap
  | step {heap heap1 heap2 : Heap} (d : Data) (idx : Int) :
      H.StorageData heap d = .ok (idx, heap1) → StoredFrom H heap1 heap2 →
      StoredFrom H heap heap2

/-- A descriptor list whose second descriptor has a tag that is not supported. -/
def unsupportedParams : List Param := [⟨"int", "7"⟩, ⟨"float", "1.5"⟩]

/-- A JSON rendering of a Result Descriptor, without escaping. -/
def renderRtn (r : Rtn) : String :=
  "\x7b\"type\":\"" ++ r.Typ ++ "\",\"val\":\"" ++ r.Val ++ "\"\x7d"

/-- The concrete host with the plain JSON rendering of Result Descriptors. -/
def demoHostRender : Host := { demoHost with jsonMarshal := fun r => .ok (renderRtn r) }

/-- Two 32-bit elements `1, 2`, followed by the tag text `int_array`. -/
def heapIntArray : List Byte :=
  [1, 0, 0, 0, 2, 0, 0, 0, 105, 110, 116, 95, 97, 114, 114, 97, 121]

/-- Two 64-bit elements `1, 2`. -/
def heapInt64Array : List Byte := [1, 0, 0, 0, 0, 0, 0, 0, 2, 0, 0, 0, 0, 0, 0, 0]

/-- A VM with a 32-byte heap whose first two bytes are a tracked region (the schema
document), called as `jsonUnmashal(4, 12, 0)`. -/
def vmArray : VM :=
  vmWith (List.replicate 32 0) [(0, ⟨ElemType.Unknown, 2⟩)] [4, 12, 0] 0

/-- What a call returned: `(bool, error)`, or `none` for a panic. -/
def Outcome.returned : Outcome → Option (Bool × Option String)
  | .ret consumed err _ => some (consumed, err)
  | .panic _ => none

/-- The VM a call leaves. -/
def Outcome.vm : Outcome → VM
  | .ret _ _ vm => vm
  | .panic vm => vm

/-- The VM called with the given arguments. -/
def VM.withParams (vm : VM) (params : List Nat) : VM :=
  { vm with envFunc := { vm.envFunc with envFuncParam := params } }

/-- The null-terminated run of a buffer as the spec words it: the prefix before the
first zero byte, the whole buffer when it has none. -/
def nullTerminatedRun (b : List Byte) : List Byte := b.takeWhile (· ≠ 0)

/-- A heap with the two tracked regions `ab\0c` (at 0) and `ab\0d` (at 4). -/
def vmStrings : VM :=
  vmWith [97, 98, 0, 99, 97, 98, 0, 100]
    [(0, ⟨ElemType.String, 4⟩), (4, ⟨ElemType.String, 4⟩)] [0, 4] 0

/-- The empty registry. -/
def emptyMap : FuncMap := fun _ => none

/-- The handlers that read the parameter stream. -/
def readers (H : Host) : List Handler :=
  [readInt32Param H, readInt64Param H, readStringParam H]

/-- The other handlers that `NewEnvFunc` registers. -/
def otherBuiltins (H : Host) : List Handler :=
  [calloc H, malloc H, arrayLen, memcpy, stringcmp H, rawUnmashal H, jsonUnmashal H,
   jsonMashal H]

/-- One handler invocation: the interpreter prepares a call (arguments, return flag,
saved continuation, heap) without touching the cursor, and a registered handler runs. -/
def invocation (H : Host) (vm vm1 : VM) : Prop :=
  ∃ (pre : VM) (h : Handler), h ∈ readers H ++ otherBuiltins H ∧
    pre.envFunc.envFuncParamIdx = vm.envFunc.envFuncParamIdx ∧ (h pre).vm = vm1

/-- The values of a Go `int`. -/
def isInt64 (x : Int) : Prop := -9223372036854775808 ≤ x ∧ x < 9223372036854775808

/-- The 8-byte parameter stream `78 56 34 12 01 00 00 00`, read from cursor 0. -/
def vmInts : VM :=
  vmWith [0x78, 0x56, 0x34, 0x12, 1, 0, 0, 0] [(0, ⟨ElemType.Unknown, 8⟩)] [0] 0

/-! ## Facts about machine integers and slices -/

theorem toInt_of_lt {x : Nat} (h : x < 9223372036854775808) : toInt x = (x : Int) := by
  unfold toInt
  have h1 : x % 18446744073709551616 = x := Nat.mod_eq_of_lt (by omega)
  rw [h1, if_pos h]

theorem toInt_range (x : Nat) :
    -9223372036854775808 ≤ toInt x ∧ toInt x < 9223372036854775808 := by
  unfold toInt
  split <;> omega

theorem wrapInt_of_range {x : Int} (h0 : -9223372036854775808 ≤ x)
    (h1 : x < 9223372036854775808) : wrapInt x = x := by
  unfold wrapInt
  omega

theorem slice_eq_some {α : Type} (s : List α) (lo hi : Nat) (h1 : lo ≤ hi)
    (h2 : hi ≤ s.length) :
    slice s (lo : Int) (hi : Int) = some ((s.drop lo).take (hi - lo)) := by
  unfold slice
  rw [if_pos (by omega)]
  simp

theorem slice_eq_none {α : Type} (s : List α) (lo hi : Int)
    (h : lo < 0 ∨ hi < lo ∨ (s.length : Int) < hi) : slice s lo hi = none := by
  unfold slice
  rw [if_neg (by omega)]

/-- A window of `n` elements copied over a window of `n` elements replaces it. -/
theorem goCopy_same_length {α : Type} (d s : List α) (h : d.length = s.length) :
    goCopy d s = s := by
  unfold goCopy
  rw [h, List.take_length, List.drop_of_length_le (by omega), List.append_nil]

theorem setWindow_length {α : Type} (mem : List α) (lo : Nat) (win : List α)
    (h : lo + win.length ≤ mem.length) : (setWindow mem lo win).length = mem.length := by
  unfold setWindow
  simp only [List.length_append, List.length_take, List.length_drop]
  omega

theorem setWindow_window {α : Type} (mem : List α) (lo : Nat) (win : List α)
    (h : lo + win.length ≤ mem.length) :
    ((setWindow mem lo win).drop lo).take win.length = win := by
  unfold setWindow
  have hl : (mem.take lo).length = lo := by rw [List.length_take]; omega
  rw [List.append_assoc, List.drop_append_of_le_length (by omega)]
  rw [List.drop_of_length_le (by omega), List.nil_append]
  rw [List.take_append_of_le_length (by omega), List.take_length]

theorem setWindow_outside {α : Type} (mem : List α) (lo : Nat) (win : List α)
    (h : lo + win.length ≤ mem.length) (i : Nat) (hi : i < lo ∨ lo + win.length ≤ i) :
    (setWindow mem lo win).get? i = mem.get? i := by
  unfold setWindow
  have hl : (mem.take lo).length = lo := by rw [List.length_take]; omega
  rcases hi with hi | hi
  · rw [List.append_assoc, List.get?_eq_getElem?, List.get?_eq_getElem?,
      List.getElem?_append_left (by omega), List.getElem?_take_of_lt hi]
  · rw [List.get?_eq_getElem?, List.get?_eq_getElem?,
      List.getElem?_append_right (by simp only [List.length_append]; omega)]
    simp only [List.length_append, hl, List.getElem?_drop]
    congr 1
    omega

/-- With the ranges inside the heap and the one-sided overlap test negative, `memcpy`
succeeds and writes the prior source window over the destination window. -/
theorem memcpy_run (vm : VM) (p0 p1 p2 dest src n : Nat)
    (hparams : vm.envFunc.envFuncParam = [p0, p1, p2])
    (e0 : toInt p0 = (dest : Int)) (e1 : toInt p1 = (src : Int)) (e2 : toInt p2 = (n : Int))
    (hd : dest + n ≤ vm.heap.memory.length) (hs : src + n ≤ vm.heap.memory.length)
    (hlen : vm.heap.memory.length < 9223372036854775808)
    (hno : ¬ (dest < src ∧ dest + n > src)) :
    memcpy vm = .ok (restoreAndPush { vm with heap := { vm.heap with
      memory := setWindow vm.heap.memory dest ((vm.heap.memory.drop src).take n) } } 1) := by
  have w0 : wrapInt ((dest : Int) + (n : Int)) = ((dest + n : Nat) : Int) := by
    rw [wrapInt_of_range (by omega) (by omega)]; push_cast; rfl
  have w1 : wrapInt ((src : Int) + (n : Int)) = ((src + n : Nat) : Int) := by
    rw [wrapInt_of_range (by omega) (by omega)]; push_cast; rfl
  unfold memcpy
  rw [hparams]
  simp only [e0, e1, e2, w0, w1]
  rw [if_neg (by omega)]
  rw [slice_eq_some _ dest (dest + n) (by omega) hd, slice_eq_some _ src (src + n) (by omega) hs]
  simp only [Int.toNat_ofNat, Nat.add_sub_cancel_left]
  rw [goCopy_same_length]
  simp only [List.length_take, List.length_drop]
  omega

theorem restoreAndPush_heap (vm : VM) (r : Nat) : (restoreAndPush vm r).heap = vm.heap := by
  unfold restoreAndPush pushUint64
  split <;> rfl

theorem restoreAndPush_envFunc (vm : VM) (r : Nat) :
    (restoreAndPush vm r).envFunc = vm.envFunc := by
  unfold restoreAndPush pushUint64
  split <;> rfl

/-! ## `memcpy` -/

/-- C1: for a call of `memcpy` with exactly three arguments (read as signed 64-bit
integers `dest`, `src`, `length`) whose two ranges lie inside the heap, the overlap
error is returned if and only if `dest < src` and `dest + length > src`; when it is, the
VM, and with it the heap and the operand stack, is exactly as before the call. -/
theorem memcpy_overlap_error_iff (vm : VM) (p0 p1 p2 : Nat)
    (hparams : vm.envFunc.envFuncParam = [p0, p1, p2])
    (hlen : vm.heap.memory.length < 9223372036854775808)
    (hdest : 0 ≤ toInt p0 ∧ 0 ≤ toInt p2 ∧
      toInt p0 + toInt p2 ≤ (vm.heap.memory.length : Int))
    (hsrc : 0 ≤ toInt p1 ∧ toInt p1 + toInt p2 ≤ (vm.heap.memory.length : Int)) :
    ((∃ vm1, memcpy vm = .error "memcpy overlapped" vm1) ↔
        (toInt p0 < toInt p1 ∧ toInt p0 + toInt p2 > toInt p1)) ∧
      ((toInt p0 < toInt p1 ∧ toInt p0 + toInt p2 > toInt p1) →
        memcpy vm = .error "memcpy overlapped" vm) := by
  have hyes : (toInt p0 < toInt p1 ∧ toInt p0 + toInt p2 > toInt p1) →
      memcpy vm = .error "memcpy overlapped" vm := by
    intro hc
    unfold memcpy
    rw [hparams]
    simp only
    rw [wrapInt_of_range (by omega) (by omega), if_pos hc]
  refine ⟨⟨?_, fun hc => ⟨vm, hyes hc⟩⟩, hyes⟩
  rintro ⟨vm1, h1⟩
  by_contra hc
  obtain ⟨dest, e0⟩ := Int.eq_ofNat_of_zero_le hdest.1
  obtain ⟨src, e1⟩ := Int.eq_ofNat_of_zero_le hsrc.1
  obtain ⟨n, e2⟩ := Int.eq_ofNat_of_zero_le hdest.2.1
  rw [memcpy_run vm p0 p1 p2 dest src n hparams e0 e1 e2 (by omega) (by omega) hlen
    (by omega)] at h1
  exact absurd h1 (by simp [Outcome.ok, Outcome.error])

/-- The call `memcpy(0, 2, 5)` on a heap of seven bytes is rejected as overlapping. -/
theorem memcpy_overlap_error_iff_witness :
    memcpy (vmWith [0, 1, 2, 3, 4, 5, 6] [] [0, 2, 5] 0)
      = .error "memcpy overlapped" (vmWith [0, 1, 2, 3, 4, 5, 6] [] [0, 2, 5] 0) :=
  (memcpy_overlap_error_iff (vmWith [0, 1, 2, 3, 4, 5, 6] [] [0, 2, 5] 0) 0 2 5 rfl
    (by decide) (by decide) (by decide)).2 (by decide)

/-- C2: when `[dest, dest+n)` and `[src, src+n)` lie inside the heap and do not overlap,
`memcpy(dest, src, n)` succeeds; afterwards the heap has the same length, its bytes
`[dest, dest+n)` are the prior bytes `[src, src+n)`, and every byte outside
`[dest, dest+n)` is as before. -/
theorem memcpy_copies (vm : VM) (dest src n : Nat)
    (hparams : vm.envFunc.envFuncParam = [dest, src, n])
    (hlen : vm.heap.memory.length < 9223372036854775808)
    (hd : dest + n ≤ vm.heap.memory.length) (hs : src + n ≤ vm.heap.memory.length)
    (hdisj : dest + n ≤ src ∨ src + n ≤ dest) :
    ∃ vm1, memcpy vm = .ok vm1 ∧
      vm1.heap.memory.length = vm.heap.memory.length ∧
      (vm1.heap.memory.drop dest).take n = (vm.heap.memory.drop src).take n ∧
      ∀ i, i < dest ∨ dest + n ≤ i → vm1.heap.memory.get? i = vm.heap.memory.get? i := by
  have hw : ((vm.heap.memory.drop src).take n).length = n := by
    rw [List.length_take, List.length_drop]; omega
  refine ⟨_, memcpy_run vm dest src n dest src n hparams (toInt_of_lt (by omega))
    (toInt_of_lt (by omega)) (toInt_of_lt (by omega)) hd hs hlen (by omega), ?_, ?_, ?_⟩
  · rw [restoreAndPush_heap]
    exact setWindow_length _ _ _ (by omega)
  · rw [restoreAndPush_heap]
    have h := setWindow_window vm.heap.memory dest ((vm.heap.memory.drop src).take n)
      (by omega)
    rw [hw] at h
    exact h
  · intro i hi
    rw [restoreAndPush_heap]
    exact setWindow_outside _ _ _ (by omega) i (by omega)

/-- The call `memcpy(4, 0, 3)` on a heap of seven bytes copies bytes 0..2 to 4..6. -/
theorem memcpy_copies_witness :
    ∃ vm1, memcpy (vmWith [10, 11, 12, 13, 14, 15, 16] [] [4, 0, 3] 0) = .ok vm1 ∧
      vm1.heap.memory.length = 7 ∧
      (vm1.heap.memory.drop 4).take 3 = [10, 11, 12] ∧
      ∀ i, i < 4 ∨ 4 + 3 ≤ i →
        vm1.heap.memory.get? i = ([10, 11, 12, 13, 14, 15, 16] : List Byte).get? i :=
  memcpy_copies (vmWith [10, 11, 12, 13, 14, 15, 16] [] [4, 0, 3] 0) 4 0 3 rfl
    (by decide) (by decide) (by decide) (by decide)

/-- C3: `memcpy` has no bounds check of its own.  With a length of `-1` (the argument
`2^64 - 1`), and likewise with a length one above the heap size, the one-sided overlap
test passes and the slice expression of line 173 is out of range: the call panics
instead of returning an error. -/
theorem memcpy_out_of_bounds_panics :
    memcpy (vmWith [1, 2, 3, 4] [] [0, 0, 18446744073709551615] 0)
        = .panic (vmWith [1, 2, 3, 4] [] [0, 0, 18446744073709551615] 0) ∧
      memcpy (vmWith [1, 2, 3, 4] [] [0, 0, 5] 0)
        = .panic (vmWith [1, 2, 3, 4] [] [0, 0, 5] 0) := by
  constructor <;> decide

/-! ## `readStringParam` at two concrete streams -/

set_option maxRecDepth 100000 in
/-- C4: on the stream `fd 82 00 'a'*130 00` read from cursor 0, `readStringParam`
succeeds and leaves the cursor at 134, past the terminator, but the region it stores
(at address 134, of 133 bytes) holds the two length bytes, the 130 content bytes and
the terminator, not the 130 content bytes alone. -/
theorem readStringParam_fd_stores_length_field :
    readStringParam demoHost (vmWith stream130 [(0, ⟨ElemType.Unknown, 134⟩)] [0] 0) = .ok
      { heap := { memory := stream130 ++ (130 :: 0 :: (List.replicate 130 97 ++ [0])),
                  memType := [(134, ⟨ElemType.Unknown, 133⟩), (0, ⟨ElemType.Unknown, 134⟩)],
                  allocPtr := 267 },
        ctx := { stack := [134], frame := 0 },
        envFunc := { envFuncCtx := ctx0, envFuncParam := [0], envFuncRtn := true,
                     envFuncParamIdx := 134 } } := by
  decide

/-- On the stream `02 'a' 'b' 00` read from cursor 0, `readStringParam` succeeds and
stores exactly the two content bytes (at address 4), and it leaves the cursor at
`3 = c + 1 + L`, behind the tag and the content, not at `4 = c + 1 + L + 1`. -/
theorem readStringParam_short_cursor_on_terminator :
    readStringParam demoHost (vmWith [2, 97, 98, 0] [(0, ⟨ElemType.Unknown, 4⟩)] [0] 0) = .ok
      { heap := { memory := [2, 97, 98, 0, 97, 98],
                  memType := [(4, ⟨ElemType.Unknown, 2⟩), (0, ⟨ElemType.Unknown, 4⟩)],
                  allocPtr := 6 },
        ctx := { stack := [4], frame := 0 },
        envFunc := { envFuncCtx := ctx0, envFuncParam := [0], envFuncRtn := true,
                     envFuncParamIdx := 3 } } ∧
      (3 : Int) ≠ 0 + 1 + 2 + 1 := by
  constructor <;> decide

theorem index_eq_get? {α : Type} (s : List α) (i : Nat) (h : i < s.length) :
    index s (i : Int) = s.get? i := by
  unfold index
  rw [if_pos (by omega), Int.toNat_ofNat]

/-- The short form on any host: with a tag `L < 0xfd` at the cursor `c`, followed by `L`
content bytes, `readStringParam` hands exactly the content bytes `b[c+1 .. c+1+L)` to
the store and sets the cursor to `c + L + 1`, the offset right behind the content. -/
theorem readStringParam_short_run (H : Host) (vm : VM) (addr c : Nat) (b : List Byte)
    (tag : Byte)
    (hparams : vm.envFunc.envFuncParam = [addr])
    (hget : H.GetData vm.heap addr = .ok b)
    (hcur : vm.envFunc.envFuncParamIdx = (c : Int))
    (hlen : b.length < 9223372036854775808)
    (htag : b.get? c = some tag) (hshort : tag.val < 0xfd)
    (hfit : c + 1 + tag.val ≤ b.length) :
    readStringParam H vm =
      match H.StorageData vm.heap (Data.bytes ((b.drop (c + 1)).take tag.val)) with
      | .error _ => .error "set memory failed" vm
      | .ok (retidx, heap1) =>
        .ok (restoreAndPush
          { vm with heap := heap1,
                    envFunc := { vm.envFunc with
                      envFuncParamIdx := ((c + tag.val + 1 : Nat) : Int) } }
          (toUint64 retidx)) := by
  have hhead : stringHeader b (c : Int) = .val ((tag.val : Int), (c : Int)) := by
    unfold stringHeader
    rw [index_eq_get? _ _ (by omega), htag]
    simp only
    rw [if_neg (by omega), if_neg (by omega), if_neg (by omega)]
  have w1 : wrapInt ((tag.val : Int) + 1) = (tag.val : Int) + 1 :=
    wrapInt_of_range (by omega) (by omega)
  have w2 : wrapInt ((c : Int) + ((tag.val : Int) + 1)) = ((c + tag.val + 1 : Nat) : Int) := by
    rw [wrapInt_of_range (by omega) (by omega)]; push_cast; omega
  have w3 : wrapInt ((c : Int) + (tag.val : Int)) = (c : Int) + (tag.val : Int) :=
    wrapInt_of_range (by omega) (by omega)
  have w4 : wrapInt ((c : Int) + 1) = ((c + 1 : Nat) : Int) := by
    rw [wrapInt_of_range (by omega) (by omega)]; push_cast; rfl
  unfold readStringParam
  rw [hparams]
  simp only [hget]
  rw [hcur]
  rw [hhead]
  dsimp only
  rw [w1, w2, w3, w4, if_neg (by omega),
    slice_eq_some _ (c + 1) (c + tag.val + 1) (by omega) (by omega)]
  have hsub : c + tag.val + 1 - (c + 1) = tag.val := by omega
  rw [hsub]

/-- The `0xfd` form on any host: with the tag at the cursor `c`, the length `L` in the
next two bytes, followed by `L` content bytes and a terminator, `readStringParam` hands
the `L + 3` bytes `b[c+1 .. c+3+L+1)` (length field, content and terminator) to the
store and sets the cursor to `c + 3 + L + 1`. -/
theorem readStringParam_fd_run (H : Host) (vm : VM) (addr c : Nat) (b : List Byte)
    (lo hi : Byte)
    (hparams : vm.envFunc.envFuncParam = [addr])
    (hget : H.GetData vm.heap addr = .ok b)
    (hcur : vm.envFunc.envFuncParamIdx = (c : Int))
    (hlen : b.length < 9223372036854775808)
    (htag : b.get? c = some 0xfd)
    (hfield : (b.drop (c + 1)).take 2 = [lo, hi])
    (hfit : c + 3 + (lo.val + hi.val * 256) + 1 ≤ b.length) :
    readStringParam H vm =
      match H.StorageData vm.heap
          (Data.bytes ((b.drop (c + 1)).take (lo.val + hi.val * 256 + 3))) with
      | .error _ => .error "set memory failed" vm
      | .ok (retidx, heap1) =>
        .ok (restoreAndPush
          { vm with heap := heap1,
                    envFunc := { vm.envFunc with
                      envFuncParamIdx := ((c + 3 + (lo.val + hi.val * 256) + 1 : Nat) : Int) } }
          (toUint64 retidx)) := by
  have w3 : wrapInt ((c : Int) + 3) = ((c + 3 : Nat) : Int) := by
    rw [wrapInt_of_range (by omega) (by omega)]; push_cast; rfl
  have w4 : wrapInt ((c : Int) + 1) = ((c + 1 : Nat) : Int) := by
    rw [wrapInt_of_range (by omega) (by omega)]; push_cast; rfl
  have hu : Uint16 [lo, hi] = some (lo.val + hi.val * 256) := rfl
  have hhead : stringHeader b (c : Int)
      = .val (((lo.val + hi.val * 256 : Nat) : Int), ((c + 3 : Nat) : Int)) := by
    unfold stringHeader
    rw [index_eq_get? _ _ (by omega), htag]
    dsimp only
    rw [if_pos (by decide)]
    unfold lengthField
    rw [w3, w4, if_neg (by omega), slice_eq_some _ (c + 1) (c + 3) (by omega) (by omega)]
    have hsub : c + 3 - (c + 1) = 2 := by omega
    rw [hsub, hfield, Option.some_bind, hu]
  generalize lo.val + hi.val * 256 = L at hfit hhead ⊢
  have w1 : wrapInt ((L : Int) + 1) = (L : Int) + 1 :=
    wrapInt_of_range (by omega) (by omega)
  have w2 : wrapInt (((c + 3 : Nat) : Int) + ((L : Int) + 1)) = ((c + 3 + L + 1 : Nat) : Int) := by
    rw [wrapInt_of_range (by omega) (by omega)]; push_cast; omega
  have w5 : wrapInt (((c + 3 : Nat) : Int) + (L : Int)) = ((c + 3 : Nat) : Int) + (L : Int) :=
    wrapInt_of_range (by omega) (by omega)
  unfold readStringParam
  rw [hparams]
  simp only [hget]
  rw [hcur, hhead]
  dsimp only
  rw [w1, w2, w4, w5, if_neg (by omega),
    slice_eq_some _ (c + 1) (c + 3 + L + 1) (by omega) (by omega)]
  have hsub : c + 3 + L + 1 - (c + 1) = L + 3 := by omega
  rw [hsub]

/-! ## `readInt32Param` and `readInt64Param` -/

theorem Uint32_eq_littleEndian (l : List Byte) (h : l.length = 4) :
    Uint32 l = some (littleEndian l) := by
  match l, h with
  | [b0, b1, b2, b3], _ =>
    simp only [Uint32, littleEndian, Option.some.injEq]
    omega

theorem Uint64_eq_littleEndian (l : List Byte) (h : l.length = 8) :
    Uint64 l = some (littleEndian l) := by
  match l, h with
  | [b0, b1, b2, b3, b4, b5, b6, b7], _ =>
    simp only [Uint64, littleEndian, Option.some.injEq]
    omega

theorem littleEndian_lt (l : List Byte) : littleEndian l < 256 ^ l.length := by
  induction l with
  | nil => simp [littleEndian]
  | cons b bs ih =>
    simp only [littleEndian, List.length_cons, pow_succ]
    have := b.isLt
    omega

theorem restoreAndPush_stack (vm : VM) (r : Nat) :
    (restoreAndPush vm r).ctx.stack =
      if vm.envFunc.envFuncRtn then vm.envFunc.envFuncCtx.stack ++ [r]
      else vm.envFunc.envFuncCtx.stack := by
  unfold restoreAndPush pushUint64
  split <;> rfl

/-- C5, as amended: for every cursor `c` and fetched buffer that holds at offset `c` a
tag byte `L < 0xfd` and then `L` content bytes (a terminator byte may follow),
`readStringParam` hands exactly the `L` content bytes `b[c+1 .. c+1+L)` to the store
and, when the store returns the address `idx`, succeeds with the heap the store left,
the cursor at `c + 1 + L`, behind the tag and the content (a following byte is not
skipped), and `idx` pushed exactly when a return value is expected. -/
theorem readStringParam_short_spec (H : Host) (vm : VM) (addr c : Nat) (b : List Byte)
    (tag : Byte) (idx : Int) (heap1 : Heap)
    (hparams : vm.envFunc.envFuncParam = [addr])
    (hget : H.GetData vm.heap addr = .ok b)
    (hcur : vm.envFunc.envFuncParamIdx = (c : Int))
    (hlen : b.length < 9223372036854775808)
    (htag : b.get? c = some tag) (hshort : tag.val < 0xfd)
    (hfit : c + 1 + tag.val ≤ b.length)
    (hstore : H.StorageData vm.heap (Data.bytes ((b.drop (c + 1)).take tag.val))
      = .ok (idx, heap1)) :
    ((b.drop (c + 1)).take tag.val).length = tag.val ∧
    ∃ vm1, readStringParam H vm = .ok vm1 ∧ vm1.heap = heap1 ∧
      vm1.envFunc.envFuncParamIdx = (c : Int) + 1 + (tag.val : Int) ∧
      vm1.ctx.stack =
        if vm.envFunc.envFuncRtn then vm.envFunc.envFuncCtx.stack ++ [toUint64 idx]
        else vm.envFunc.envFuncCtx.stack := by
  have hrun := readStringParam_short_run H vm addr c b tag hparams hget hcur hlen htag hshort
    hfit
  rw [hstore] at hrun
  refine ⟨by rw [List.length_take, List.length_drop]; omega, _, hrun, ?_, ?_, ?_⟩
  · rw [restoreAndPush_heap]
  · rw [restoreAndPush_envFunc]
    push_cast
    omega
  · rw [restoreAndPush_stack]

/-- The stream `02 'a' 'b' 00` read from cursor 0 on the concrete host: the store
returns address 4 and the cursor ends at 3. -/
theorem readStringParam_short_spec_witness :
    (((([2, 97, 98, 0] : List Byte).drop (0 + 1)).take (2 : Byte).val).length
        = (2 : Byte).val) ∧
    ∃ vm1, readStringParam demoHost
          (vmWith [2, 97, 98, 0] [(0, ⟨ElemType.Unknown, 4⟩)] [0] 0) = .ok vm1 ∧
      vm1.heap = { memory := [2, 97, 98, 0, 97, 98],
                   memType := [(4, ⟨ElemType.Unknown, 2⟩), (0, ⟨ElemType.Unknown, 4⟩)],
                   allocPtr := 6 } ∧
      vm1.envFunc.envFuncParamIdx = ((0 : Nat) : Int) + 1 + (((2 : Byte).val : Nat) : Int) ∧
      vm1.ctx.stack =
        if (vmWith [2, 97, 98, 0] [(0, ⟨ElemType.Unknown, 4⟩)] [0] 0).envFunc.envFuncRtn then
          (vmWith [2, 97, 98, 0] [(0, ⟨ElemType.Unknown, 4⟩)] [0] 0).envFunc.envFuncCtx.stack
            ++ [toUint64 4]
        else
          (vmWith [2, 97, 98, 0] [(0, ⟨ElemType.Unknown, 4⟩)] [0] 0).envFunc.envFuncCtx.stack :=
  readStringParam_short_spec demoHost
    (vmWith [2, 97, 98, 0] [(0, ⟨ElemType.Unknown, 4⟩)] [0] 0) 0 0 [2, 97, 98, 0] 2 4
    { memory := [2, 97, 98, 0, 97, 98],
      memType := [(4, ⟨ElemType.Unknown, 2⟩), (0, ⟨ElemType.Unknown, 4⟩)],
      allocPtr := 6 }
    rfl rfl rfl (by decide) rfl (by decide) (by decide) rfl

/-- What `readInt32Param` does at a cursor `c` that is a byte offset. -/
theorem readInt32Param_run (H : Host) (vm : VM) (addr c : Nat) (b : List Byte)
    (hparams : vm.envFunc.envFuncParam = [addr])
    (hget : H.GetData vm.heap addr = .ok b)
    (hcur : vm.envFunc.envFuncParamIdx = (c : Int))
    (hrange : c + 4 < 9223372036854775808) :
    readInt32Param H vm =
      if c + 4 > b.length then .error "read params error" vm
      else .ok (restoreAndPush
        { vm with envFunc := { vm.envFunc with envFuncParamIdx := ((c + 4 : Nat) : Int) } }
        (littleEndian ((b.drop c).take 4))) := by
  have w : wrapInt ((c : Int) + 4) = ((c + 4 : Nat) : Int) := by
    rw [wrapInt_of_range (by omega) (by omega)]; push_cast; rfl
  unfold readInt32Param
  rw [hparams]
  simp only [hget, hcur, w]
  by_cases hc : c + 4 > b.length
  · rw [if_pos (by omega), if_pos hc]
  · rw [if_neg (by omega), if_neg hc, slice_eq_some _ c (c + 4) (by omega) (by omega)]
    have hl : ((b.drop c).take 4).length = 4 := by
      rw [List.length_take, List.length_drop]; omega
    simp only [Nat.add_sub_cancel_left, Option.some_bind, Uint32_eq_littleEndian _ hl]

/-- What `readInt64Param` does at a cursor `c` that is a byte offset. -/
theorem readInt64Param_run (H : Host) (vm : VM) (addr c : Nat) (b : List Byte)
    (hparams : vm.envFunc.envFuncParam = [addr])
    (hget : H.GetData vm.heap addr = .ok b)
    (hcur : vm.envFunc.envFuncParamIdx = (c : Int))
    (hrange : c + 8 < 9223372036854775808) :
    readInt64Param H vm =
      if c + 8 > b.length then .error "read params error" vm
      else .ok (restoreAndPush
        { vm with envFunc := { vm.envFunc with envFuncParamIdx := ((c + 8 : Nat) : Int) } }
        (littleEndian ((b.drop c).take 8))) := by
  have w : wrapInt ((c : Int) + 8) = ((c + 8 : Nat) : Int) := by
    rw [wrapInt_of_range (by omega) (by omega)]; push_cast; rfl
  unfold readInt64Param
  rw [hparams]
  simp only [hget, hcur, w]
  by_cases hc : c + 8 > b.length
  · rw [if_pos (by omega), if_pos hc]
  · rw [if_neg (by omega), if_neg hc, slice_eq_some _ c (c + 8) (by omega) (by omega)]
    have hl : ((b.drop c).take 8).length = 8 := by
      rw [List.length_take, List.length_drop]; omega
    simp only [Nat.add_sub_cancel_left, Option.some_bind, Uint64_eq_littleEndian _ hl]

/-- C6: for `readInt32Param` (width 4) and `readInt64Param` (width 8), with `b` the
buffer fetched at the argument and `c` the cursor (a byte offset): if `c + w > len(b)`
the call returns an error and the VM, cursor and operand stack included, is as before;
otherwise it succeeds, the cursor becomes `c + w`, the heap is untouched, and the
operand stack is the saved one, extended by the little-endian value of `b[c .. c+w)`
(below `2^(8w)`, so unchanged as a 64-bit value) exactly when a return value is
expected. -/
theorem readIntParam_spec (H : Host) (vm : VM) (addr c : Nat) (b : List Byte)
    (hparams : vm.envFunc.envFuncParam = [addr])
    (hget : H.GetData vm.heap addr = .ok b)
    (hcur : vm.envFunc.envFuncParamIdx = (c : Int))
    (hrange : c + 8 < 9223372036854775808) :
    ((c + 4 > b.length → readInt32Param H vm = .error "read params error" vm) ∧
      (c + 4 ≤ b.length → ∃ vm1, readInt32Param H vm = .ok vm1 ∧
        vm1.envFunc.envFuncParamIdx = (c : Int) + 4 ∧ vm1.heap = vm.heap ∧
        littleEndian ((b.drop c).take 4) < 4294967296 ∧
        vm1.ctx.stack =
          if vm.envFunc.envFuncRtn then
            vm.envFunc.envFuncCtx.stack ++ [littleEndian ((b.drop c).take 4)]
          else vm.envFunc.envFuncCtx.stack)) ∧
    ((c + 8 > b.length → readInt64Param H vm = .error "read params error" vm) ∧
      (c + 8 ≤ b.length → ∃ vm1, readInt64Param H vm = .ok vm1 ∧
        vm1.envFunc.envFuncParamIdx = (c : Int) + 8 ∧ vm1.heap = vm.heap ∧
        littleEndian ((b.drop c).take 8) < 18446744073709551616 ∧
        vm1.ctx.stack =
          if vm.envFunc.envFuncRtn then
            vm.envFunc.envFuncCtx.stack ++ [littleEndian ((b.drop c).take 8)]
          else vm.envFunc.envFuncCtx.stack)) := by
  have r4 := readInt32Param_run H vm addr c b hparams hget hcur (by omega)
  have r8 := readInt64Param_run H vm addr c b hparams hget hcur hrange
  refine ⟨⟨fun h => by rw [r4, if_pos h], fun h => ?_⟩,
    ⟨fun h => by rw [r8, if_pos h], fun h => ?_⟩⟩
  · refine ⟨_, by rw [r4, if_neg (by omega)], ?_, ?_, ?_, ?_⟩
    · rw [restoreAndPush_envFunc]; push_cast; rfl
    · rw [restoreAndPush_heap]
    · have hl : ((b.drop c).take 4).length = 4 := by
        rw [List.length_take, List.length_drop]; omega
      have := littleEndian_lt ((b.drop c).take 4)
      rw [hl] at this
      exact this
    · rw [restoreAndPush_stack]
  · refine ⟨_, by rw [r8, if_neg (by omega)], ?_, ?_, ?_, ?_⟩
    · rw [restoreAndPush_envFunc]; push_cast; rfl
    · rw [restoreAndPush_heap]
    · have hl : ((b.drop c).take 8).length = 8 := by
        rw [List.length_take, List.length_drop]; omega
      have := littleEndian_lt ((b.drop c).take 8)
      rw [hl] at this
      exact this
    · rw [restoreAndPush_stack]

/-- On the 8-byte stream `78 56 34 12 01 00 00 00` at cursor 0 both readers succeed. -/
theorem readIntParam_spec_witness :
    ((0 + 4 > ([0x78, 0x56, 0x34, 0x12, 1, 0, 0, 0] : List Byte).length →
        readInt32Param demoHost
            (vmWith [0x78, 0x56, 0x34, 0x12, 1, 0, 0, 0] [(0, ⟨ElemType.Unknown, 8⟩)] [0] 0)
          = .error "read params error"
            (vmWith [0x78, 0x56, 0x34, 0x12, 1, 0, 0, 0] [(0, ⟨ElemType.Unknown, 8⟩)] [0] 0)) ∧
      (0 + 4 ≤ ([0x78, 0x56, 0x34, 0x12, 1, 0, 0, 0] : List Byte).length →
        ∃ vm1, readInt32Param demoHost
            (vmWith [0x78, 0x56, 0x34, 0x12, 1, 0, 0, 0] [(0, ⟨ElemType.Unknown, 8⟩)] [0] 0)
          = .ok vm1 ∧
        vm1.envFunc.envFuncParamIdx = ((0 : Nat) : Int) + 4 ∧
        vm1.heap = (vmWith [0x78, 0x56, 0x34, 0x12, 1, 0, 0, 0]
          [(0, ⟨ElemType.Unknown, 8⟩)] [0] 0).heap ∧
        littleEndian ((([0x78, 0x56, 0x34, 0x12, 1, 0, 0, 0] : List Byte).drop 0).take 4)
          < 4294967296 ∧
        vm1.ctx.stack =
          if (vmWith [0x78, 0x56, 0x34, 0x12, 1, 0, 0, 0]
              [(0, ⟨ElemType.Unknown, 8⟩)] [0] 0).envFunc.envFuncRtn then
            (vmWith [0x78, 0x56, 0x34, 0x12, 1, 0, 0, 0]
              [(0, ⟨ElemType.Unknown, 8⟩)] [0] 0).envFunc.envFuncCtx.stack ++
              [littleEndian ((([0x78, 0x56, 0x34, 0x12, 1, 0, 0, 0] : List Byte).drop 0).take 4)]
          else (vmWith [0x78, 0x56, 0x34, 0x12, 1, 0, 0, 0]
              [(0, ⟨ElemType.Unknown, 8⟩)] [0] 0).envFunc.envFuncCtx.stack)) :=
  (readIntParam_spec demoHost
    (vmWith [0x78, 0x56, 0x34, 0x12, 1, 0, 0, 0] [(0, ⟨ElemType.Unknown, 8⟩)] [0] 0)
    0 0 [0x78, 0x56, 0x34, 0x12, 1, 0, 0, 0] rfl rfl rfl (by decide)).1

/-! ## `arrayLen`, `calloc`, `malloc` -/

theorem toUint64_tdiv_of_nonneg (len : Int) (w : Nat) (hw : 0 < w) (h0 : 0 ≤ len)
    (h1 : len < 9223372036854775808) :
    toUint64 (Int.tdiv len (w : Int)) = len.toNat / w := by
  obtain ⟨n, rfl⟩ := Int.eq_ofNat_of_zero_le h0
  have hdiv : Int.tdiv (n : Int) (w : Int) = ((n / w : Nat) : Int) := by
    rw [Int.tdiv_eq_ediv (by omega) (by omega)]; rfl
  have hle : n / w ≤ n := Nat.div_le_self n w
  unfold toUint64
  rw [hdiv, Int.toNat_ofNat]
  generalize n / w = m at hle
  omega

/-- C7: called with one argument `a`, `arrayLen` never fails and changes neither the
heap with its descriptor table nor the call frame with its cursor; its result is 0 when
`a` has no descriptor and otherwise the byte length divided by the element width (1
for Int8, String and Unknown, 2 for Int16, 4 for Int32 and Float32, 8 for Int64 and
Float64), truncated and taken as an unsigned 64-bit value; the result is pushed when a
return value is expected.  The descriptor `{Int32, 16}` gives 4, `{Unknown, 10}`
gives 10. -/
theorem arrayLen_spec (vm : VM) (a : Nat) (hparams : vm.envFunc.envFuncParam = [a]) :
    (∃ vm1, arrayLen vm = .ok vm1 ∧ vm1.heap = vm.heap ∧ vm1.envFunc = vm.envFunc ∧
      vm1.ctx.stack =
        if vm.envFunc.envFuncRtn then
          vm.envFunc.envFuncCtx.stack ++ [arrayLenResult (vm.heap.memType.lookup a)]
        else vm.envFunc.envFuncCtx.stack) ∧
    arrayLenResult none = 0 ∧
    (∀ t : typeInfo,
      arrayLenResult (some t) = toUint64 (Int.tdiv t.Len (elementWidth t.Typ : Int)) ∧
      (0 ≤ t.Len → t.Len < 9223372036854775808 →
        arrayLenResult (some t) = t.Len.toNat / elementWidth t.Typ)) ∧
    arrayLenResult (some ⟨ElemType.Int32, 16⟩) = 4 ∧
    arrayLenResult (some ⟨ElemType.Unknown, 10⟩) = 10 := by
  have hgen : ∀ t : typeInfo,
      arrayLenResult (some t) = toUint64 (Int.tdiv t.Len (elementWidth t.Typ : Int)) := by
    intro t
    obtain ⟨ty, len⟩ := t
    cases ty <;> rfl
  refine ⟨⟨restoreAndPush vm (arrayLenResult (vm.heap.memType.lookup a)), ?_,
    restoreAndPush_heap _ _, restoreAndPush_envFunc _ _, restoreAndPush_stack _ _⟩,
    rfl, fun t => ⟨hgen t, fun h0 h1 => ?_⟩, by decide, by decide⟩
  · unfold arrayLen
    rw [hparams]
  · rw [hgen t]
    apply toUint64_tdiv_of_nonneg _ _ _ h0 h1
    obtain ⟨ty, len⟩ := t
    cases ty <;> simp [elementWidth]

/-- The call `arrayLen(8)` where address 8 has the descriptor `{Int32, 16}`. -/
theorem arrayLen_spec_witness :
    ∃ vm1, arrayLen (vmWith [] [(8, ⟨ElemType.Int32, 16⟩)] [8] 0) = .ok vm1 ∧
      vm1.heap = (vmWith [] [(8, ⟨ElemType.Int32, 16⟩)] [8] 0).heap ∧
      vm1.envFunc = (vmWith [] [(8, ⟨ElemType.Int32, 16⟩)] [8] 0).envFunc ∧
      vm1.ctx.stack =
        if (vmWith [] [(8, ⟨ElemType.Int32, 16⟩)] [8] 0).envFunc.envFuncRtn then
          (vmWith [] [(8, ⟨ElemType.Int32, 16⟩)] [8] 0).envFunc.envFuncCtx.stack ++
            [arrayLenResult ((vmWith [] [(8, ⟨ElemType.Int32, 16⟩)] [8] 0).heap.memType.lookup 8)]
        else (vmWith [] [(8, ⟨ElemType.Int32, 16⟩)] [8] 0).envFunc.envFuncCtx.stack :=
  (arrayLen_spec (vmWith [] [(8, ⟨ElemType.Int32, 16⟩)] [8] 0) 8 rfl).1

/-- C8: `calloc(count, length)` asks the allocator for `count*length` bytes, the product
wrapped to a signed 64-bit integer, and `malloc(size)` for `size` bytes, both with
element type Unknown.  If the allocator fails its error is returned and the VM is as
before; if it returns the address `A` and a new heap, the call succeeds, the saved
continuation is restored and `A`, as an unsigned 64-bit value, is pushed on it exactly
when a return value is expected. -/
theorem calloc_malloc_spec (H : Host) (vmc vmm : VM) (count length size : Nat)
    (hc : vmc.envFunc.envFuncParam = [count, length])
    (hm : vmm.envFunc.envFuncParam = [size]) :
    calloc H vmc =
      (match H.getStoragePos vmc.heap (wrapInt (toInt count * toInt length))
          ElemType.Unknown with
        | .error e => Outcome.error e vmc
        | .ok (A, heap1) => Outcome.ok
          { heap := heap1,
            ctx := if vmc.envFunc.envFuncRtn then
                { stack := vmc.envFunc.envFuncCtx.stack ++ [toUint64 A],
                  frame := vmc.envFunc.envFuncCtx.frame }
              else vmc.envFunc.envFuncCtx,
            envFunc := vmc.envFunc }) ∧
    malloc H vmm =
      (match H.getStoragePos vmm.heap (toInt size) ElemType.Unknown with
        | .error e => Outcome.error e vmm
        | .ok (A, heap1) => Outcome.ok
          { heap := heap1,
            ctx := if vmm.envFunc.envFuncRtn then
                { stack := vmm.envFunc.envFuncCtx.stack ++ [toUint64 A],
                  frame := vmm.envFunc.envFuncCtx.frame }
              else vmm.envFunc.envFuncCtx,
            envFunc := vmm.envFunc }) := by
  constructor
  · unfold calloc
    rw [hc]
    simp only
    cases H.getStoragePos vmc.heap (wrapInt (toInt count * toInt length)) ElemType.Unknown with
    | error e => rfl
    | ok r =>
      obtain ⟨A, heap1⟩ := r
      simp only [restoreAndPush, pushUint64]
      cases vmc.envFunc.envFuncRtn <;> rfl
  · unfold malloc
    rw [hm]
    simp only
    cases H.getStoragePos vmm.heap (toInt size) ElemType.Unknown with
    | error e => rfl
    | ok r =>
      obtain ⟨A, heap1⟩ := r
      simp only [restoreAndPush, pushUint64]
      cases vmm.envFunc.envFuncRtn <;> rfl

/-- The two allocation handlers on the concrete host: `calloc(3, 4)` and `malloc(10)`. -/
theorem calloc_malloc_spec_witness :
    calloc demoHost (vmWith [] [] [3, 4] 0) =
      (match demoHost.getStoragePos (vmWith [] [] [3, 4] 0).heap
          (wrapInt (toInt 3 * toInt 4)) ElemType.Unknown with
        | .error e => Outcome.error e (vmWith [] [] [3, 4] 0)
        | .ok (A, heap1) => Outcome.ok
          { heap := heap1,
            ctx := if (vmWith [] [] [3, 4] 0).envFunc.envFuncRtn then
                { stack := (vmWith [] [] [3, 4] 0).envFunc.envFuncCtx.stack ++ [toUint64 A],
                  frame := (vmWith [] [] [3, 4] 0).envFunc.envFuncCtx.frame }
              else (vmWith [] [] [3, 4] 0).envFunc.envFuncCtx,
            envFunc := (vmWith [] [] [3, 4] 0).envFunc }) ∧
    malloc demoHost (vmWith [] [] [10] 0) =
      (match demoHost.getStoragePos (vmWith [] [] [10] 0).heap (toInt 10)
          ElemType.Unknown with
        | .error e => Outcome.error e (vmWith [] [] [10] 0)
        | .ok (A, heap1) => Outcome.ok
          { heap := heap1,
            ctx := if (vmWith [] [] [10] 0).envFunc.envFuncRtn then
                { stack := (vmWith [] [] [10] 0).envFunc.envFuncCtx.stack ++ [toUint64 A],
                  frame := (vmWith [] [] [10] 0).envFunc.envFuncCtx.frame }
              else (vmWith [] [] [10] 0).envFunc.envFuncCtx,
            envFunc := (vmWith [] [] [10] 0).envFunc }) :=
  calloc_malloc_spec demoHost (vmWith [] [] [3, 4] 0) (vmWith [] [] [10] 0) 3 4 10 rfl rfl

/-! ## Decimal text: parsing inverts formatting -/

theorem digitValue_digitChar (d : Nat) (h : d < 10) : digitValue (Nat.digitChar d) = some d := by
  interval_cases d <;> rfl

theorem digitChar_ne_sign (d : Nat) (h : d < 10) :
    Nat.digitChar d ≠ '+' ∧ Nat.digitChar d ≠ '-' := by
  interval_cases d <;> decide

/-- Parsing the digits that `Nat.toDigitsCore` puts in front of `ds` adds the number they
denote to the accumulator, as long as the total stays a `uint64`. -/
theorem parseUint_toDigitsCore (fuel : Nat) : ∀ (n : Nat) (ds : List Char), n < fuel →
    ∃ k, ∀ acc, acc * 10 ^ k + n ≤ 18446744073709551615 →
      parseUint acc (Nat.toDigitsCore 10 fuel n ds) = parseUint (acc * 10 ^ k + n) ds := by
  induction fuel with
  | zero => intro n ds h; omega
  | succ fuel ih =>
    intro n ds hn
    by_cases h0 : n / 10 = 0
    · refine ⟨1, fun acc hacc => ?_⟩
      have hlt : n < 10 := by omega
      have hmod : n % 10 = n := Nat.mod_eq_of_lt hlt
      simp only [Nat.toDigitsCore, h0, if_true, hmod, parseUint, digitValue_digitChar n hlt,
        pow_one] at hacc ⊢
      rw [if_neg (by omega)]
    · obtain ⟨k, hk⟩ := ih (n / 10) (Nat.digitChar (n % 10) :: ds) (by omega)
      refine ⟨k + 1, fun acc hacc => ?_⟩
      have hsplit : acc * 10 ^ (k + 1) + n = (acc * 10 ^ k + n / 10) * 10 + n % 10 := by
        rw [pow_succ]
        have := Nat.div_add_mod n 10
        nlinarith
      simp only [Nat.toDigitsCore, h0, if_false]
      rw [hk acc (by omega)]
      simp only [parseUint, digitValue_digitChar (n % 10) (Nat.mod_lt _ (by omega))]
      rw [if_neg (by omega), hsplit]

theorem parseUint_formatUint (n : Nat) (h : n ≤ 18446744073709551615) :
    parseUint 0 (formatUint n) = .ok n := by
  obtain ⟨k, hk⟩ := parseUint_toDigitsCore (n + 1) n [] (by omega)
  have := hk 0 (by omega)
  simp only [zero_mul, zero_add, parseUint] at this
  exact this

/-- The digits of a number start with a digit. -/
theorem toDigitsCore_head (fuel : Nat) : ∀ (n : Nat) (ds : List Char),
    ∃ d rest, d < 10 ∧ Nat.toDigitsCore 10 (fuel + 1) n ds = Nat.digitChar d :: rest := by
  induction fuel with
  | zero =>
    intro n ds
    refine ⟨n % 10, ds, Nat.mod_lt _ (by omega), ?_⟩
    simp only [Nat.toDigitsCore]
    split <;> rfl
  | succ fuel ih =>
    intro n ds
    by_cases h0 : n / 10 = 0
    · refine ⟨n % 10, ds, Nat.mod_lt _ (by omega), ?_⟩
      rw [Nat.toDigitsCore]
      simp only [h0, if_true]
    · obtain ⟨d, rest, hd, hr⟩ := ih (n / 10) (Nat.digitChar (n % 10) :: ds)
      refine ⟨d, rest, hd, ?_⟩
      rw [Nat.toDigitsCore]
      simp only [h0, if_false]
      exact hr

theorem formatUint_head (n : Nat) :
    ∃ d rest, d < 10 ∧ formatUint n = Nat.digitChar d :: rest :=
  toDigitsCore_head n n []

/-- Parsing the decimal rendering of a signed 64-bit value gives the value back. -/
theorem parseSigned_FormatInt (fn : String) (v : Int) (h0 : -9223372036854775808 ≤ v)
    (h1 : v < 9223372036854775808) : parseSigned fn (FormatInt v) = .ok v := by
  obtain ⟨d, rest, hd, hr⟩ := formatUint_head v.natAbs
  have hp := parseUint_formatUint v.natAbs (by omega)
  obtain ⟨hplus, hminus⟩ := digitChar_ne_sign d hd
  unfold parseSigned FormatInt
  by_cases hneg : v < 0
  · rw [if_pos hneg]
    simp only [String.toList, decide_True, or_true, if_true]
    rw [if_neg (by rw [hr]; exact List.cons_ne_nil _ _), hp]
    simp only [if_true]
    rw [if_neg (by omega)]
    congr 1
    omega
  · rw [if_neg hneg]
    simp only [String.toList]
    rw [hr]
    simp only [hplus, hminus, decide_False, or_self, if_false]
    rw [if_neg (List.cons_ne_nil _ _), ← hr, hp]
    simp only [Bool.false_eq_true, if_false]
    rw [if_neg (by omega)]
    congr 1
    omega

/-! ## `jsonUnmashal` on scalar descriptors -/

theorem PutUint32_eq_twosComplementLE (v : Int) :
    PutUint32 (toUint32 v) = twosComplementLE 4 v := by
  simp only [PutUint32, twosComplementLE, leDigits, toUint32, Nat.div_div_eq_div_mul]
  norm_num

theorem PutUint64_eq_twosComplementLE (v : Int) :
    PutUint64 (toUint64 v) = twosComplementLE 8 v := by
  simp only [PutUint64, twosComplementLE, leDigits, toUint64, Nat.div_div_eq_div_mul]
  norm_num

theorem leDigits_length (w n : Nat) : (leDigits w n).length = w := by
  induction w generalizing n with
  | zero => rfl
  | succ w ih => simp [leDigits, ih]

theorem Scalar.field_length (sc : Scalar) : sc.field.length = sc.width := by
  cases sc <;> simp [Scalar.field, Scalar.width, twosComplementLE, leDigits_length]

/-- One turn of the loop on a scalar descriptor: the prescribed field, the heap as is. -/
theorem encodeParam_scalar (H : Host) (heap : Heap) (p : Param) (sc : Scalar)
    (h : sc.describedBy H p) : encodeParam H heap p = .ok (heap, sc.field) := by
  cases sc with
  | int v =>
    obtain ⟨ht, h0, h1, hv⟩ := h
    unfold encodeParam
    simp only [ht, if_true, hv, Atoi]
    rw [parseSigned_FormatInt _ v (by omega) (by omega)]
    simp only [PutUint32_eq_twosComplementLE, Scalar.field]
  | int64 v =>
    obtain ⟨ht, h0, h1, hv⟩ := h
    unfold encodeParam
    simp only [ht, hv, ParseInt]
    rw [if_pos trivial, parseSigned_FormatInt _ v h0 h1]
    simp only [PutUint64_eq_twosComplementLE, Scalar.field]
    rw [if_neg (by decide)]

/-- The loop on a list of scalar descriptors: the fields in list order, the heap as is. -/
theorem encodeParams_scalars (H : Host) (heap : Heap) (buff : List Byte) (ps : List Param)
    (scs : List Scalar) (h : List.Forall₂ (fun p sc => Scalar.describedBy H p sc) ps scs) :
    encodeParams H heap buff ps = (heap, .ok (buff ++ (scs.map Scalar.field).flatten)) := by
  induction h generalizing buff with
  | nil => simp [encodeParams]
  | cons hp _ ih =>
    simp only [encodeParams, encodeParam_scalar H heap _ _ hp, ih, List.map_cons,
      List.flatten_cons, List.append_assoc]

theorem fields_length (scs : List Scalar) :
    ((scs.map Scalar.field).flatten).length = (scs.map Scalar.width).sum := by
  induction scs with
  | nil => rfl
  | cons sc scs ih =>
    simp only [List.map_cons, List.flatten_cons, List.length_append, List.sum_cons, ih,
      Scalar.field_length]

/-- What `jsonUnmashal` does once the loop has produced `bytes` without touching the
heap: the bound check of line 464 and the copy of line 468. -/
theorem jsonUnmashal_run (H : Host) (vm : VM) (destAddr size schemaAddr : Nat)
    (jsonbytes : List Byte) (ps : List Param) (bytes : List Byte)
    (hparams : vm.envFunc.envFuncParam = [destAddr, size, schemaAddr])
    (hget : H.GetData vm.heap schemaAddr = .ok jsonbytes)
    (hjson : H.jsonUnmarshal jsonbytes = .ok ps)
    (henc : encodeParams H vm.heap [] ps = (vm.heap, .ok bytes)) :
    jsonUnmashal H vm =
      if wrapInt (toInt destAddr + (bytes.length : Int)) > (vm.heap.memory.length : Int) then
        .error "out of memory" vm
      else
        match slice vm.heap.memory (toInt destAddr)
            (wrapInt (toInt destAddr + (bytes.length : Int))) with
        | none => .panic vm
        | some d => .ok { vm with
            heap := { vm.heap with
              memory := setWindow vm.heap.memory (toInt destAddr).toNat (goCopy d bytes) },
            ctx := vm.envFunc.envFuncCtx } := by
  unfold jsonUnmashal
  rw [hparams]
  simp only [hget, hjson, henc]

/-- For a Parameter Descriptor List of `int` and `int64` descriptors (tags in any
letter case, `val` the decimal rendering of a value of the 32-bit, respectively 64-bit,
signed range) and `total` the sum of their widths: if `destAddr + total <= len(heap)`,
`jsonUnmashal` succeeds, the heap keeps its length and descriptors, its bytes
`[destAddr, destAddr+total)` are the little-endian two's-complement fields in list
order and every other byte is as before; if `destAddr + total > len(heap)` the VM is
unchanged and the call returns the error "out of memory" whenever `destAddr + total`
is a signed 64-bit value, and otherwise stops at the slice expression. -/
theorem jsonUnmashal_scalars (H : Host) (vm : VM) (destAddr size schemaAddr : Nat)
    (jsonbytes : List Byte) (ps : List Param) (scs : List Scalar)
    (hparams : vm.envFunc.envFuncParam = [destAddr, size, schemaAddr])
    (hget : H.GetData vm.heap schemaAddr = .ok jsonbytes)
    (hjson : H.jsonUnmarshal jsonbytes = .ok ps)
    (hdesc : List.Forall₂ (fun p sc => Scalar.describedBy H p sc) ps scs)
    (haddr : destAddr < 18446744073709551616)
    (hlen : vm.heap.memory.length < 9223372036854775808)
    (htotal : (scs.map Scalar.width).sum < 9223372036854775808) :
    (destAddr + (scs.map Scalar.width).sum ≤ vm.heap.memory.length →
      ∃ vm1, jsonUnmashal H vm = .ok vm1 ∧
        vm1.heap.memory.length = vm.heap.memory.length ∧
        vm1.heap.memType = vm.heap.memType ∧
        (vm1.heap.memory.drop destAddr).take (scs.map Scalar.width).sum
          = (scs.map Scalar.field).flatten ∧
        ∀ i, i < destAddr ∨ destAddr + (scs.map Scalar.width).sum ≤ i →
          vm1.heap.memory.get? i = vm.heap.memory.get? i) ∧
    (destAddr + (scs.map Scalar.width).sum > vm.heap.memory.length →
      (jsonUnmashal H vm = .error "out of memory" vm ∨ jsonUnmashal H vm = .panic vm) ∧
      (destAddr + (scs.map Scalar.width).sum < 9223372036854775808 →
        jsonUnmashal H vm = .error "out of memory" vm)) := by
  have henc := encodeParams_scalars H vm.heap [] ps scs hdesc
  rw [List.nil_append] at henc
  have hrun := jsonUnmashal_run H vm destAddr size schemaAddr jsonbytes ps _ hparams hget
    hjson henc
  have hbl := fields_length scs
  generalize (scs.map Scalar.field).flatten = bytes at hrun hbl ⊢
  generalize (scs.map Scalar.width).sum = total at hbl htotal ⊢
  rw [hbl] at hrun
  constructor
  · intro hfit
    have e0 : toInt destAddr = (destAddr : Int) := toInt_of_lt (by omega)
    have w0 : wrapInt ((destAddr : Int) + (total : Int)) = ((destAddr + total : Nat) : Int) := by
      rw [wrapInt_of_range (by omega) (by omega)]; push_cast; rfl
    rw [e0, w0, if_neg (by omega),
      slice_eq_some _ destAddr (destAddr + total) (by omega) hfit] at hrun
    simp only [Int.toNat_ofNat, Nat.add_sub_cancel_left] at hrun
    rw [goCopy_same_length _ _ (by rw [List.length_take, List.length_drop]; omega)] at hrun
    refine ⟨_, hrun, ?_, rfl, ?_, ?_⟩
    · exact setWindow_length _ _ _ (by omega)
    · have h := setWindow_window vm.heap.memory destAddr bytes (by omega)
      rw [hbl] at h
      exact h
    · intro i hi
      exact setWindow_outside _ _ _ (by omega) i (by omega)
  · intro hover
    have herr : wrapInt (toInt destAddr + (total : Int)) > (vm.heap.memory.length : Int) →
        jsonUnmashal H vm = .error "out of memory" vm := by
      intro h
      rw [hrun, if_pos h]
    refine ⟨?_, fun hsmall => herr ?_⟩
    · by_cases h : wrapInt (toInt destAddr + (total : Int)) > (vm.heap.memory.length : Int)
      · exact Or.inl (herr h)
      · right
        rw [hrun, if_neg h, slice_eq_none]
        revert h
        unfold wrapInt toInt
        split <;> omega
    · rw [toInt_of_lt (by omega), wrapInt_of_range (by omega) (by omega)]
      omega

set_option maxRecDepth 100000 in
/-- The list `[{INT, "-2"}, {Int64, "258"}]` written at address 4 of a 16-byte heap. -/
theorem jsonUnmashal_scalars_witness :
    ∃ vm1, jsonUnmashal (demoHostWith scalarParams) vmScalars = .ok vm1 ∧
      vm1.heap.memory.length = vmScalars.heap.memory.length ∧
      vm1.heap.memType = vmScalars.heap.memType ∧
      (vm1.heap.memory.drop 4).take
          (([Scalar.int (-2), Scalar.int64 258] : List Scalar).map Scalar.width).sum
        = (([Scalar.int (-2), Scalar.int64 258] : List Scalar).map Scalar.field).flatten ∧
      ∀ i, i < 4 ∨
          4 + (([Scalar.int (-2), Scalar.int64 258] : List Scalar).map Scalar.width).sum ≤ i →
        vm1.heap.memory.get? i = vmScalars.heap.memory.get? i :=
  (jsonUnmashal_scalars (demoHostWith scalarParams) vmScalars 4 12 0 [0, 0] scalarParams
    [Scalar.int (-2), Scalar.int64 258] rfl rfl rfl
    (List.Forall₂.cons ⟨by decide, by decide, by decide, by decide⟩
      (List.Forall₂.cons ⟨by decide, by decide, by decide, by decide⟩ List.Forall₂.nil))
    (by decide) (by decide) (by decide)).1 (by decide)

set_option maxRecDepth 100000 in
/-- C9: the bound check of line 464 adds the length to `int(addr)`, which is negative
for a `destAddr` of `2^63` or more.  For the list `[{INT, "-2"}, {Int64, "258"}]`
(12 bytes) and `destAddr = 2^64 - 1` on a 16-byte heap, `int(addr) + 12 = 11` is not
above 16, the check passes and the slice `vm.memory[-1 : 11]` of line 468 panics: the
call does not return the out-of-memory error. -/
theorem jsonUnmashal_negative_address_panics :
    jsonUnmashal (demoHostWith scalarParams)
        (vmWith (List.replicate 16 0) [(0, ⟨ElemType.Unknown, 2⟩)]
          [18446744073709551615, 12, 0] 0)
      = .panic
        (vmWith (List.replicate 16 0) [(0, ⟨ElemType.Unknown, 2⟩)]
          [18446744073709551615, 12, 0] 0) := by
  decide

/-! ## `jsonUnmashal` on an unsupported tag -/

theorem StoredFrom.trans {H : Host} {h1 h2 h3 : Heap} (a : StoredFrom H h1 h2)
    (b : StoredFrom H h2 h3) : StoredFrom H h1 h3 := by
  induction a with
  | refl => exact b
  | step d idx hs _ ih => exact StoredFrom.step d idx hs (ih b)

/-- A turn of the loop on a tag outside the supported ones is the `default` case. -/
theorem encodeParam_unsupported (H : Host) (heap : Heap) (p : Param)
    (hbad : H.ToLower p.Typ ∉ supportedTags) :
    encodeParam H heap p = .error ("unsupported type :" ++ p.Typ) := by
  simp only [supportedTags, List.mem_cons, List.mem_singleton, List.not_mem_nil, or_false,
    not_or] at hbad
  obtain ⟨h1, h2, h3, h4, h5⟩ := hbad
  unfold encodeParam
  simp only [h1, h2, h3, h4, h5, if_false]

/-- A turn of the loop changes the heap by at most one store of the host. -/
theorem encodeParam_heap (H : Host) (heap heap1 : Heap) (p : Param) (field : List Byte)
    (h : encodeParam H heap p = .ok (heap1, field)) : StoredFrom H heap heap1 := by
  unfold encodeParam at h
  simp only at h
  split_ifs at h
  · split at h
    · cases h
    · cases h; exact StoredFrom.refl _
  · split at h
    · cases h
    · cases h; exact StoredFrom.refl _
  · split at h
    · cases h
    · split at h
      · cases h
      · rename_i hs
        cases h
        exact StoredFrom.step _ _ hs (StoredFrom.refl _)
  · split at h
    · cases h
    · split at h
      · cases h
      · rename_i hs
        cases h
        exact StoredFrom.step _ _ hs (StoredFrom.refl _)
  · split at h
    · cases h
    · rename_i hs
      cases h
      exact StoredFrom.step _ _ hs (StoredFrom.refl _)

/-- The heap the loop leaves arises from the initial one by stores of the host alone. -/
theorem encodeParams_heap (H : Host) (ps : List Param) : ∀ (heap : Heap) (buff : List Byte),
    StoredFrom H heap (encodeParams H heap buff ps).1 := by
  induction ps with
  | nil => intro heap buff; exact StoredFrom.refl _
  | cons p ps ih =>
    intro heap buff
    unfold encodeParams
    cases hp : encodeParam H heap p with
    | error e => exact StoredFrom.refl _
    | ok r =>
      obtain ⟨heap1, field⟩ := r
      exact StoredFrom.trans (encodeParam_heap H heap heap1 p field hp) (ih heap1 _)

/-- The loop on a list that holds an unsupported descriptor ends in an error: the
unsupported-type error when the descriptors before it encode. -/
theorem encodeParams_unsupported (H : Host) (p : Param) (post : List Param)
    (hbad : H.ToLower p.Typ ∉ supportedTags) : ∀ (pre : List Param) (heap : Heap)
    (buff : List Byte),
    (∃ e, (encodeParams H heap buff (pre ++ p :: post)).2 = .error e) ∧
    (∀ heap1 buff1, encodeParams H heap buff pre = (heap1, .ok buff1) →
      encodeParams H heap buff (pre ++ p :: post)
        = (heap1, .error ("unsupported type :" ++ p.Typ))) := by
  intro pre
  induction pre with
  | nil =>
    intro heap buff
    simp only [List.nil_append, encodeParams, encodeParam_unsupported H heap p hbad]
    refine ⟨⟨_, rfl⟩, fun heap1 buff1 h => ?_⟩
    cases h
    rfl
  | cons q pre ih =>
    intro heap buff
    simp only [List.cons_append, encodeParams]
    cases hq : encodeParam H heap q with
    | error e =>
      refine ⟨⟨e, rfl⟩, fun heap1 buff1 h => ?_⟩
      cases h
    | ok r =>
      obtain ⟨heap1, field⟩ := r
      exact ih heap1 (buff ++ field)

/-- An error inside the loop is what `jsonUnmashal` returns, with the heap as the loop
left it. -/
theorem jsonUnmashal_loop_error (H : Host) (vm : VM) (destAddr size schemaAddr : Nat)
    (jsonbytes : List Byte) (ps : List Param) (heap1 : Heap) (e : String)
    (hparams : vm.envFunc.envFuncParam = [destAddr, size, schemaAddr])
    (hget : H.GetData vm.heap schemaAddr = .ok jsonbytes)
    (hjson : H.jsonUnmarshal jsonbytes = .ok ps)
    (henc : encodeParams H vm.heap [] ps = (heap1, .error e)) :
    jsonUnmashal H vm = .error e { vm with heap := heap1 } := by
  unfold jsonUnmashal
  rw [hparams]
  simp only [hget, hjson, henc]

/-- C10: when the Parameter Descriptor List holds a descriptor whose tag, lower-cased,
is none of `int`, `int64`, `int_array`, `int64_array`, `string`, `jsonUnmashal` returns
an error, and the heap it leaves arises from the prior heap by the host's stores for
earlier descriptors alone: the handler itself writes nothing.  When the descriptors
before the unsupported one encode, the error is the unsupported-type error.  A tag whose
lower-casing is a supported tag is encoded exactly as that lower-case tag. -/
theorem jsonUnmashal_unsupported (H : Host) (vm : VM) (destAddr size schemaAddr : Nat)
    (jsonbytes : List Byte) (pre : List Param) (p : Param) (post : List Param)
    (hparams : vm.envFunc.envFuncParam = [destAddr, size, schemaAddr])
    (hget : H.GetData vm.heap schemaAddr = .ok jsonbytes)
    (hjson : H.jsonUnmarshal jsonbytes = .ok (pre ++ p :: post))
    (hbad : H.ToLower p.Typ ∉ supportedTags) :
    (∃ e heap1, jsonUnmashal H vm = .error e { vm with heap := heap1 } ∧
      StoredFrom H vm.heap heap1) ∧
    (∀ heap1 buff, encodeParams H vm.heap [] pre = (heap1, .ok buff) →
      jsonUnmashal H vm
        = .error ("unsupported type :" ++ p.Typ) { vm with heap := heap1 }) ∧
    (∀ (heap : Heap) (tag lower val : String), lower ∈ supportedTags →
      H.ToLower tag = lower → H.ToLower lower = lower →
      encodeParam H heap ⟨tag, val⟩ = encodeParam H heap ⟨lower, val⟩) := by
  obtain ⟨⟨e, he⟩, hun⟩ := encodeParams_unsupported H p post hbad pre vm.heap []
  refine ⟨⟨e, (encodeParams H vm.heap [] (pre ++ p :: post)).1, ?_, encodeParams_heap H _ _ _⟩,
    fun heap1 buff h => ?_, fun heap tag lower val hmem h1 h2 => ?_⟩
  · exact jsonUnmashal_loop_error H vm destAddr size schemaAddr jsonbytes _ _ e hparams hget
      hjson (Prod.ext rfl he)
  · exact jsonUnmashal_loop_error H vm destAddr size schemaAddr jsonbytes _ _ _ hparams hget
      hjson (hun heap1 buff h)
  · simp only [supportedTags, List.mem_cons, List.mem_singleton, List.not_mem_nil,
      or_false] at hmem
    unfold encodeParam
    simp only [h1, h2]
    rcases hmem with rfl | rfl | rfl | rfl | rfl <;> simp

set_option maxRecDepth 100000 in
/-- The list `[{int, "7"}, {float, "1.5"}]` is rejected for its second descriptor, with
the VM unchanged; and on the concrete host `INT` is encoded as `int`, `Int64` as
`int64`. -/
theorem jsonUnmashal_unsupported_witness :
    jsonUnmashal (demoHostWith unsupportedParams) vmScalars
        = .error "unsupported type :float" vmScalars ∧
      encodeParam demoHost vmScalars.heap ⟨"INT", "-2"⟩
        = encodeParam demoHost vmScalars.heap ⟨"int", "-2"⟩ ∧
      encodeParam demoHost vmScalars.heap ⟨"Int64", "258"⟩
        = encodeParam demoHost vmScalars.heap ⟨"int64", "258"⟩ :=
  ⟨(jsonUnmashal_unsupported (demoHostWith unsupportedParams) vmScalars 4 12 0 [0, 0]
      [⟨"int", "7"⟩] ⟨"float", "1.5"⟩ [] rfl rfl rfl (by decide)).2.1 vmScalars.heap
      (PutUint32 7) rfl,
    (jsonUnmashal_unsupported (demoHostWith unsupportedParams) vmScalars 4 12 0 [0, 0]
      [⟨"int", "7"⟩] ⟨"float", "1.5"⟩ [] rfl rfl rfl (by decide)).2.2 vmScalars.heap
      "INT" "int" "-2" (by decide) (by decide) (by decide),
    (jsonUnmashal_unsupported (demoHostWith unsupportedParams) vmScalars 4 12 0 [0, 0]
      [⟨"int", "7"⟩] ⟨"float", "1.5"⟩ [] rfl rfl rfl (by decide)).2.2 vmScalars.heap
      "Int64" "int64" "258" (by decide) (by decide) (by decide)⟩

/-! ## `jsonMashal` on arrays -/

theorem toNat_ofNat_byte (x : Byte) : (Char.ofNat x.val).toNat = x.val := by
  rcases x with ⟨n, hn⟩
  simp only
  interval_cases n <;> rfl

set_option maxRecDepth 100000 in
/-- C11: on the 8-byte buffer `01 00 00 00 02 00 00 00` the `val` that `jsonMashal`
produces for `int_array` is `1,33554432`, not `1,2`: element 1 is decoded from bytes
`[1, 5)`, not `[4, 8)`.  Likewise for `int64_array` on the 16-byte buffer holding 1 and
2, where element 1 is decoded from bytes `[1, 9)`.  The third part is the whole call on
the concrete host. -/
theorem jsonMashal_int_array_overlapping_elements :
    marshalRtn demoHost
        (vmWith heapIntArray [(0, ⟨ElemType.Int32, 8⟩), (8, ⟨ElemType.String, 9⟩)] [0, 8] 0).heap
        0 "int_array" = .val ⟨"int_array", "1,33554432"⟩ ∧
      marshalRtn demoHost (vmWith heapInt64Array [(0, ⟨ElemType.Int64, 16⟩)] [0, 0] 0).heap
        0 "int64_array" = .val ⟨"int64_array", "1,144115188075855872"⟩ ∧
      jsonMashal demoHostRender
        (vmWith heapIntArray [(0, ⟨ElemType.Int32, 8⟩), (8, ⟨ElemType.String, 9⟩)] [0, 8] 0)
        = .ok
          { heap := { memory := heapIntArray ++
                        dataBytes (Data.str "\x7b\"type\":\"int_array\",\"val\":\"1,33554432\"\x7d"),
                      memType := [(17, ⟨ElemType.Unknown, 39⟩), (0, ⟨ElemType.Int32, 8⟩),
                                  (8, ⟨ElemType.String, 9⟩)],
                      allocPtr := 56 },
            ctx := { stack := [17], frame := 0 },
            envFunc := { envFuncCtx := ctx0, envFuncParam := [0, 8], envFuncRtn := true,
                         envFuncParamIdx := 0 } } := by
  refine ⟨by decide, by decide, by decide⟩

/-! ## `jsonUnmashal` on an array descriptor and on `expectedSize` -/

/-- What `jsonUnmashal` does once the loop has produced `bytes` and left the heap
`heap1`: the bound check of line 464 and the copy of line 468. -/
theorem jsonUnmashal_run_heap (H : Host) (vm : VM) (destAddr size schemaAddr : Nat)
    (jsonbytes : List Byte) (ps : List Param) (bytes : List Byte) (heap1 : Heap)
    (hparams : vm.envFunc.envFuncParam = [destAddr, size, schemaAddr])
    (hget : H.GetData vm.heap schemaAddr = .ok jsonbytes)
    (hjson : H.jsonUnmarshal jsonbytes = .ok ps)
    (henc : encodeParams H vm.heap [] ps = (heap1, .ok bytes)) :
    jsonUnmashal H vm =
      if wrapInt (toInt destAddr + (bytes.length : Int)) > (heap1.memory.length : Int) then
        .error "out of memory" { vm with heap := heap1 }
      else
        match slice heap1.memory (toInt destAddr)
            (wrapInt (toInt destAddr + (bytes.length : Int))) with
        | none => .panic { vm with heap := heap1 }
        | some d => .ok { vm with
            heap := { heap1 with
              memory := setWindow heap1.memory (toInt destAddr).toNat (goCopy d bytes) },
            ctx := vm.envFunc.envFuncCtx } := by
  unfold jsonUnmashal
  rw [hparams]
  simp only [hget, hjson, henc]

theorem parseEach_123 : parseEach Atoi (Split "1,2,3") = .ok [1, 2, 3] := by
  rfl

theorem PutUint32_length (v : Nat) : (PutUint32 v).length = 4 := rfl

/-- C12, as amended: for the single descriptor `{int_array, "1,2,3"}`, `jsonUnmashal`
hands the integers 1, 2, 3 to the store of the VM and, when the store returns the
address `idx` and the four bytes at the destination fit the heap, writes the 4-byte
little-endian field of `idx` at the destination address; every other byte of the heap
the store left, and its descriptors, are kept. -/
theorem jsonUnmashal_int_array_address (H : Host) (vm : VM) (destAddr size schemaAddr : Nat)
    (jsonbytes : List Byte) (tag : String) (idx : Int) (heap1 : Heap)
    (hparams : vm.envFunc.envFuncParam = [destAddr, size, schemaAddr])
    (hget : H.GetData vm.heap schemaAddr = .ok jsonbytes)
    (hjson : H.jsonUnmarshal jsonbytes = .ok [⟨tag, "1,2,3"⟩])
    (htag : H.ToLower tag = "int_array")
    (hstore : H.StorageData vm.heap (Data.ints [1, 2, 3]) = .ok (idx, heap1))
    (hlen : heap1.memory.length < 9223372036854775808)
    (hfit : destAddr + 4 ≤ heap1.memory.length) :
    ∃ vm1, jsonUnmashal H vm = .ok vm1 ∧
      vm1.heap.memType = heap1.memType ∧
      vm1.heap.memory.length = heap1.memory.length ∧
      (vm1.heap.memory.drop destAddr).take 4 = PutUint32 (toUint32 idx) ∧
      ∀ i, i < destAddr ∨ destAddr + 4 ≤ i →
        vm1.heap.memory.get? i = heap1.memory.get? i := by
  have henc : encodeParams H vm.heap [] [⟨tag, "1,2,3"⟩]
      = (heap1, .ok (PutUint32 (toUint32 idx))) := by
    simp only [encodeParams, encodeParam, htag, parseEach_123, hstore, List.nil_append]
    all_goals rfl
  have hrun := jsonUnmashal_run_heap H vm destAddr size schemaAddr jsonbytes _ _ heap1 hparams
    hget hjson henc
  have e0 : toInt destAddr = (destAddr : Int) := toInt_of_lt (by omega)
  have w0 : wrapInt ((destAddr : Int) + (4 : Nat)) = ((destAddr + 4 : Nat) : Int) := by
    rw [wrapInt_of_range (by omega) (by omega)]; push_cast; rfl
  rw [PutUint32_length, e0, w0, if_neg (by omega),
    slice_eq_some _ destAddr (destAddr + 4) (by omega) hfit] at hrun
  simp only [Int.toNat_ofNat, Nat.add_sub_cancel_left] at hrun
  rw [goCopy_same_length _ _ (by rw [List.length_take, List.length_drop, PutUint32_length]; omega)]
    at hrun
  refine ⟨_, hrun, rfl, ?_, ?_, ?_⟩
  · exact setWindow_length _ _ _ (by rw [PutUint32_length]; omega)
  · have h := setWindow_window heap1.memory destAddr (PutUint32 (toUint32 idx))
      (by rw [PutUint32_length]; omega)
    rw [PutUint32_length] at h
    exact h
  · intro i hi
    exact setWindow_outside _ _ _ (by rw [PutUint32_length]; omega) i
      (by rw [PutUint32_length]; omega)

set_option maxRecDepth 100000 in
/-- On the concrete host the call `jsonUnmashal(4, 12, 0)` for `{int_array, "1,2,3"}`
writes `20 00 00 00`, the address 32 of the fresh region, at address 4; the twelve bytes
from address 4 are not `01 00 00 00 02 00 00 00 03 00 00 00`. -/
theorem jsonUnmashal_int_array_not_inline :
    jsonUnmashal (demoHostWith [⟨"int_array", "1,2,3"⟩]) vmArray = .ok
      { heap := { memory := [0, 0, 0, 0, 32, 0, 0, 0] ++ List.replicate 24 0 ++
                    [1, 0, 0, 0, 0, 0, 0, 0, 2, 0, 0, 0, 0, 0, 0, 0, 3, 0, 0, 0, 0, 0, 0, 0],
                  memType := [(32, ⟨ElemType.Unknown, 24⟩), (0, ⟨ElemType.Unknown, 2⟩)],
                  allocPtr := 56 },
        ctx := ctx0,
        envFunc := { envFuncCtx := ctx0, envFuncParam := [4, 12, 0], envFuncRtn := true,
                     envFuncParamIdx := 0 } } ∧
      ((([0, 0, 0, 0, 32, 0, 0, 0] ++ List.replicate 24 0 ++
          [1, 0, 0, 0, 0, 0, 0, 0, 2, 0, 0, 0, 0, 0, 0, 0, 3, 0, 0, 0, 0, 0, 0, 0] :
          List Byte).drop 4).take 12 ≠ [1, 0, 0, 0, 2, 0, 0, 0, 3, 0, 0, 0]) := by
  constructor <;> decide

set_option maxRecDepth 100000 in
/-- The amended statement on the concrete host, where the store returns address 32. -/
theorem jsonUnmashal_int_array_address_witness :
    ∃ vm1, jsonUnmashal (demoHostWith [⟨"int_array", "1,2,3"⟩]) vmArray = .ok vm1 ∧
      vm1.heap.memType = [(32, ⟨ElemType.Unknown, 24⟩), (0, ⟨ElemType.Unknown, 2⟩)] ∧
      vm1.heap.memory.length = 56 ∧
      (vm1.heap.memory.drop 4).take 4 = PutUint32 (toUint32 32) ∧
      ∀ i, i < 4 ∨ 4 + 4 ≤ i →
        vm1.heap.memory.get? i =
          (List.replicate 32 (0 : Byte) ++
            [1, 0, 0, 0, 0, 0, 0, 0, 2, 0, 0, 0, 0, 0, 0, 0, 3, 0, 0, 0, 0, 0, 0, 0]).get? i :=
  jsonUnmashal_int_array_address (demoHostWith [⟨"int_array", "1,2,3"⟩]) vmArray 4 12 0 [0, 0]
    "int_array" 32
    { memory := List.replicate 32 0 ++
        [1, 0, 0, 0, 0, 0, 0, 0, 2, 0, 0, 0, 0, 0, 0, 0, 3, 0, 0, 0, 0, 0, 0, 0],
      memType := [(32, ⟨ElemType.Unknown, 24⟩), (0, ⟨ElemType.Unknown, 2⟩)],
      allocPtr := 56 }
    rfl rfl rfl (by decide) rfl (by decide) (by decide)

/-- C13: `jsonUnmashal` does not depend on its second argument: for every VM, `destAddr`
and `schemaAddr` and any two values of `expectedSize`, the two calls return the same
`(bool, error)` (or both panic) and leave the same heap and the same context. -/
theorem jsonUnmashal_ignores_expectedSize (H : Host) (vm : VM)
    (destAddr schemaAddr size1 size2 : Nat) :
    (jsonUnmashal H (vm.withParams [destAddr, size1, schemaAddr])).returned
        = (jsonUnmashal H (vm.withParams [destAddr, size2, schemaAddr])).returned ∧
      (jsonUnmashal H (vm.withParams [destAddr, size1, schemaAddr])).vm.heap
        = (jsonUnmashal H (vm.withParams [destAddr, size2, schemaAddr])).vm.heap ∧
      (jsonUnmashal H (vm.withParams [destAddr, size1, schemaAddr])).vm.ctx
        = (jsonUnmashal H (vm.withParams [destAddr, size2, schemaAddr])).vm.ctx := by
  simp only [jsonUnmashal, VM.withParams]
  cases H.GetData vm.heap schemaAddr with
  | error e => exact ⟨rfl, rfl, rfl⟩
  | ok jsonbytes =>
    simp only
    cases H.jsonUnmarshal jsonbytes with
    | error e => exact ⟨rfl, rfl, rfl⟩
    | ok ps =>
      simp only
      rcases encodeParams H vm.heap [] ps with ⟨heap1, _ | bytes⟩
      · exact ⟨rfl, rfl, rfl⟩
      · simp only
        split
        · exact ⟨rfl, rfl, rfl⟩
        · cases slice heap1.memory (toInt destAddr)
              (wrapInt (toInt destAddr + (bytes.length : Int))) with
          | none => exact ⟨rfl, rfl, rfl⟩
          | some d => exact ⟨rfl, rfl, rfl⟩

/-! ## `strcmp` -/

theorem goString_injective (a b : List Byte) (h : goString a = goString b) : a = b := by
  unfold goString at h
  have h1 : a.map (fun x => Char.ofNat x.val) = b.map (fun x => Char.ofNat x.val) :=
    congrArg String.data h
  have hinj : Function.Injective (fun x : Byte => Char.ofNat x.val) := by
    intro x y hxy
    have := congrArg Char.toNat hxy
    simp only [toNat_ofNat_byte] at this
    exact Fin.ext this
  exact List.map_injective_iff.mpr hinj h1

theorem untilZero_eq_run (b : List Byte) : untilZero b = nullTerminatedRun b := by
  induction b with
  | nil => rfl
  | cons x xs ih =>
    unfold untilZero nullTerminatedRun
    by_cases hx : x = 0
    · simp [hx]
    · simp only [hx, if_false, List.takeWhile_cons, ne_eq, not_false_eq_true, decide_True,
        if_true]
      rw [ih]
      all_goals rfl

theorem trimBuffToString_eq_iff (a b : List Byte) :
    trimBuffToString a = trimBuffToString b ↔ nullTerminatedRun a = nullTerminatedRun b := by
  unfold trimBuffToString
  rw [untilZero_eq_run, untilZero_eq_run]
  exact ⟨goString_injective _ _, fun h => by rw [h]⟩

/-- C14: for two distinct addresses whose buffers can both be fetched, `strcmp` succeeds
and leaves heap and call frame as they are; its result is 0 when the null-terminated
runs of the two buffers are equal and 1 otherwise, and it is pushed on the restored
stack exactly when a return value is expected. -/
theorem stringcmp_spec (H : Host) (vm : VM) (addr1 addr2 : Nat) (b1 b2 : List Byte)
    (hparams : vm.envFunc.envFuncParam = [addr1, addr2])
    (hne : addr1 ≠ addr2)
    (h1 : H.GetData vm.heap addr1 = .ok b1)
    (h2 : H.GetData vm.heap addr2 = .ok b2) :
    ∃ vm1, stringcmp H vm = .ok vm1 ∧ vm1.heap = vm.heap ∧ vm1.envFunc = vm.envFunc ∧
      vm1.ctx.stack =
        if vm.envFunc.envFuncRtn then
          vm.envFunc.envFuncCtx.stack ++
            [if nullTerminatedRun b1 = nullTerminatedRun b2 then 0 else 1]
        else vm.envFunc.envFuncCtx.stack := by
  have hrun : stringcmp H vm = .ok (restoreAndPush vm
      (if nullTerminatedRun b1 = nullTerminatedRun b2 then 0 else 1)) := by
    unfold stringcmp
    rw [hparams]
    simp only [if_neg hne, h1, h2, trimBuffToString_eq_iff]
    by_cases hr : nullTerminatedRun b1 = nullTerminatedRun b2
    · simp only [hr, if_true]; rfl
    · simp only [hr, if_false]; rfl
  exact ⟨_, hrun, restoreAndPush_heap _ _, restoreAndPush_envFunc _ _,
    restoreAndPush_stack _ _⟩

/-- C15: for every address `a` and every host, also one whose fetch fails at `a`,
`strcmp(a, a)` succeeds with result 0: the outcome does not involve the fetch. -/
theorem stringcmp_same_address (H : Host) (vm : VM) (a : Nat)
    (hparams : vm.envFunc.envFuncParam = [a, a]) :
    stringcmp H vm = .ok (restoreAndPush vm 0) ∧
      (restoreAndPush vm 0).heap = vm.heap ∧
      (restoreAndPush vm 0).ctx.stack =
        (if vm.envFunc.envFuncRtn then vm.envFunc.envFuncCtx.stack ++ [0]
         else vm.envFunc.envFuncCtx.stack) := by
  refine ⟨?_, restoreAndPush_heap _ _, restoreAndPush_stack _ _⟩
  unfold stringcmp
  rw [hparams]
  simp only [if_true]
  all_goals rfl

/-- The regions `ab\0c` and `ab\0d` have the same run `ab`: result 0. -/
theorem stringcmp_spec_witness :
    ∃ vm1, stringcmp demoHost vmStrings = .ok vm1 ∧ vm1.heap = vmStrings.heap ∧
      vm1.envFunc = vmStrings.envFunc ∧
      vm1.ctx.stack =
        if vmStrings.envFunc.envFuncRtn then
          vmStrings.envFunc.envFuncCtx.stack ++
            [if nullTerminatedRun [97, 98, 0, 99] = nullTerminatedRun [97, 98, 0, 100] then 0
             else 1]
        else vmStrings.envFunc.envFuncCtx.stack :=
  stringcmp_spec demoHost vmStrings 0 4 [97, 98, 0, 99] [97, 98, 0, 100] rfl (by decide) rfl rfl

/-- The call `strcmp(7, 7)` on a heap without any tracked region, where a fetch fails. -/
theorem stringcmp_same_address_witness :
    stringcmp demoHost (vmWith [] [] [7, 7] 0) = .ok (restoreAndPush (vmWith [] [] [7, 7] 0) 0) ∧
      (restoreAndPush (vmWith [] [] [7, 7] 0) 0).heap = (vmWith [] [] [7, 7] 0).heap ∧
      (restoreAndPush (vmWith [] [] [7, 7] 0) 0).ctx.stack =
        (if (vmWith [] [] [7, 7] 0).envFunc.envFuncRtn then
          (vmWith [] [] [7, 7] 0).envFunc.envFuncCtx.stack ++ [0]
         else (vmWith [] [] [7, 7] 0).envFunc.envFuncCtx.stack) :=
  stringcmp_same_address demoHost (vmWith [] [] [7, 7] 0) 7 rfl

/-! ## Dispatch registry -/

/-- C16: `Register` is first-registration-wins: if `name` is bound, `Register(name, h1)`
leaves the whole mapping as it is; if `name` is unbound, the new mapping binds `name` to
`h1` and agrees with the old one on every other name, and a second `Register(name, h2)`
changes nothing, so that `name` stays bound to `h1`. -/
theorem Register_first_wins (envFuncMap : FuncMap) (name : String) (h1 h2 : Handler) :
    (envFuncMap name ≠ none → Register envFuncMap name h1 = envFuncMap) ∧
    (envFuncMap name = none →
      Register envFuncMap name h1 name = some h1 ∧
      (∀ other, other ≠ name → Register envFuncMap name h1 other = envFuncMap other) ∧
      Register (Register envFuncMap name h1) name h2 = Register envFuncMap name h1 ∧
      Register (Register envFuncMap name h1) name h2 name = some h1) := by
  have hnew : envFuncMap name = none → Register envFuncMap name h1 name = some h1 := by
    intro hn
    unfold Register
    rw [hn]
    simp only [if_true]
  have hkeep : ∀ (m : FuncMap) (h : Handler), m name ≠ none → Register m name h = m := by
    intro m h hb
    unfold Register
    cases hm : m name with
    | none => exact absurd hm hb
    | some _ => rfl
  refine ⟨hkeep envFuncMap h1, fun hn => ⟨hnew hn, fun other ho => ?_, ?_, ?_⟩⟩
  · unfold Register
    rw [hn]
    simp only [if_neg ho]
  · exact hkeep _ h2 (by rw [hnew hn]; exact Option.some_ne_none _)
  · rw [hkeep _ h2 (by rw [hnew hn]; exact Option.some_ne_none _)]
    exact hnew hn

/-- Registering `memcpy` and then `arrayLen` under the name `memcpy` in the empty registry
leaves `memcpy` bound to the first. -/
theorem Register_first_wins_witness :
    Register emptyMap "memcpy" memcpy "memcpy" = some memcpy ∧
      (∀ other, other ≠ "memcpy" →
        Register emptyMap "memcpy" memcpy other = emptyMap other) ∧
      Register (Register emptyMap "memcpy" memcpy) "memcpy" arrayLen
        = Register emptyMap "memcpy" memcpy ∧
      Register (Register emptyMap "memcpy" memcpy) "memcpy" arrayLen "memcpy" = some memcpy :=
  (Register_first_wins emptyMap "memcpy" memcpy arrayLen).2 rfl

/-- C17: `Invoke(name, vm)` on an unbound `name` returns `(false, error)` with the VM as
it was, no handler being involved; on a `name` bound to `h` it returns exactly what
`h(vm)` returns. -/
theorem Invoke_spec (envFuncMap : FuncMap) (name : String) (vm : VM) :
    (envFuncMap name = none →
      Invoke envFuncMap name vm = .error ("*ERROR* Failed to find method : " ++ name) vm) ∧
    (∀ h : Handler, envFuncMap name = some h → Invoke envFuncMap name vm = h vm) := by
  constructor
  · intro hn
    unfold Invoke
    rw [hn]
  · intro h hs
    unfold Invoke
    rw [hs]

/-- In the registry of `NewEnvFunc`, `free` is unbound and `arrayLen` is bound. -/
theorem Invoke_spec_witness :
    Invoke (NewEnvFunc demoHost) "free" vmInts
        = .error ("*ERROR* Failed to find method : " ++ "free") vmInts ∧
      Invoke (NewEnvFunc demoHost) "arrayLen" vmInts = arrayLen vmInts :=
  ⟨(Invoke_spec (NewEnvFunc demoHost) "free" vmInts).1 rfl,
    (Invoke_spec (NewEnvFunc demoHost) "arrayLen" vmInts).2 arrayLen rfl⟩

/-! ## `readStringParam`: bounds and wide tags -/

theorem index_eq_none {α : Type} (s : List α) (i : Int) (h : i < 0 ∨ (s.length : Int) ≤ i) :
    index s i = none := by
  unfold index
  rw [if_neg (by omega)]

/-- With the cursor outside the fetched buffer, `readStringParam` panics on any host. -/
theorem readStringParam_cursor_outside (H : Host) (vm : VM) (addr : Nat) (b : List Byte)
    (hparams : vm.envFunc.envFuncParam = [addr])
    (hget : H.GetData vm.heap addr = .ok b)
    (hout : vm.envFunc.envFuncParamIdx < 0 ∨ (b.length : Int) ≤ vm.envFunc.envFuncParamIdx) :
    readStringParam H vm = .panic vm := by
  unfold readStringParam
  rw [hparams]
  simp only [hget]
  have hh : stringHeader b vm.envFunc.envFuncParamIdx = .panic := by
    unfold stringHeader
    rw [index_eq_none _ _ hout]
  rw [hh]

/-- C18: `readStringParam` reads the tag byte `paramBytes[pidx]` before any bound check,
and its check `pidx+length > len(paramBytes)` does not cover the terminator: on the
empty buffer, with the cursor at the end of the buffer, on the stream `02 61` (one
content byte missing) and on the stream `fd 01 00 61` (terminator missing) the call
panics with an out-of-range access.  (On `fd 01`, a truncated length field, it does
return an error.) -/
theorem readStringParam_truncated_panics :
    readStringParam demoHost (vmWith [] [(0, ⟨ElemType.Unknown, 0⟩)] [0] 0)
        = .panic (vmWith [] [(0, ⟨ElemType.Unknown, 0⟩)] [0] 0) ∧
      readStringParam demoHost (vmWith [2, 97, 98, 0] [(0, ⟨ElemType.Unknown, 4⟩)] [0] 4)
        = .panic (vmWith [2, 97, 98, 0] [(0, ⟨ElemType.Unknown, 4⟩)] [0] 4) ∧
      readStringParam demoHost (vmWith [2, 97] [(0, ⟨ElemType.Unknown, 2⟩)] [0] 0)
        = .panic (vmWith [2, 97] [(0, ⟨ElemType.Unknown, 2⟩)] [0] 0) ∧
      readStringParam demoHost (vmWith [0xfd, 1, 0, 97] [(0, ⟨ElemType.Unknown, 4⟩)] [0] 0)
        = .panic (vmWith [0xfd, 1, 0, 97] [(0, ⟨ElemType.Unknown, 4⟩)] [0] 0) ∧
      readStringParam demoHost (vmWith [0xfd, 1] [(0, ⟨ElemType.Unknown, 2⟩)] [0] 0)
        = .error "read string failed" (vmWith [0xfd, 1] [(0, ⟨ElemType.Unknown, 2⟩)] [0] 0) := by
  refine ⟨by decide, by decide, by decide, by decide, by decide⟩

theorem Uint16_lt (l : List Byte) (n : Nat) (h : Uint16 l = some n) : n < 65536 := by
  match l, h with
  | b0 :: b1 :: _, h =>
    simp only [Uint16, Option.some.injEq] at h
    have := b0.isLt
    have := b1.isLt
    omega

theorem lengthField_bound (b : List Byte) (pidx w length pidx1 : Int)
    (h : lengthField b pidx w = .val (length, pidx1)) : 0 ≤ length ∧ length < 65536 := by
  unfold lengthField at h
  split at h
  · cases h
  · split at h
    · cases h
    · rename_i n hn
      cases h
      cases hs : slice b (wrapInt (pidx + 1)) (wrapInt (pidx + w)) with
      | none => rw [hs] at hn; cases hn
      | some l =>
        rw [hs] at hn
        have := Uint16_lt l n hn
        omega

/-- The length that `stringHeader` decodes is below `2^16`, whatever the tag. -/
theorem stringHeader_bound (b : List Byte) (pidx length pidx1 : Int)
    (h : stringHeader b pidx = .val (length, pidx1)) : 0 ≤ length ∧ length < 65536 := by
  unfold stringHeader at h
  split at h
  · cases h
  · rename_i tag _
    split_ifs at h
    · exact lengthField_bound _ _ _ _ _ h
    · exact lengthField_bound _ _ _ _ _ h
    · exact lengthField_bound _ _ _ _ _ h
    · cases h
      have := tag.isLt
      omega

theorem lengthField_run (b : List Byte) (c w : Nat) (lo hi : Byte)
    (hlen : b.length < 9223372036854775808) (hw : 3 ≤ w)
    (hfield : (b.drop (c + 1)).take 2 = [lo, hi]) (hfit : c + w ≤ b.length) :
    lengthField b (c : Int) (w : Int)
      = .val (((lo.val + hi.val * 256 : Nat) : Int), ((c + w : Nat) : Int)) := by
  have w1 : wrapInt ((c : Int) + 1) = ((c + 1 : Nat) : Int) := by
    rw [wrapInt_of_range (by omega) (by omega)]; push_cast; rfl
  have w2 : wrapInt ((c : Int) + (w : Int)) = ((c + w : Nat) : Int) := by
    rw [wrapInt_of_range (by omega) (by omega)]; push_cast; rfl
  have hl : ((b.drop (c + 1)).take (c + w - (c + 1))).take 2 = [lo, hi] := by
    rw [List.take_take, Nat.min_eq_left (by omega)]
    exact hfield
  have hu : ∀ l : List Byte, l.take 2 = [lo, hi] → Uint16 l = some (lo.val + hi.val * 256) := by
    intro l h
    match l, h with
    | b0 :: b1 :: rest, h =>
      simp only [List.take_succ_cons, List.take_zero, List.cons.injEq, and_true] at h
      obtain ⟨rfl, rfl⟩ := h
      rfl
  unfold lengthField
  rw [w1, w2, if_neg (by omega), slice_eq_some _ (c + 1) (c + w) (by omega) hfit,
    Option.some_bind, hu _ hl]

/-- C20: for the tag `0xfe` (`0xff`) the length that `readStringParam` decodes is the
16-bit little-endian value of the two bytes right after the tag, and `pidx` advances by
5 (9), past the tag and 4 (8) length-field bytes, whose last 2 (6) bytes play no
part; whatever the input, a decoded length is below 65536. -/
theorem stringHeader_wide_tags (b : List Byte) (c : Nat) (lo hi : Byte)
    (hlen : b.length < 9223372036854775808)
    (hfield : (b.drop (c + 1)).take 2 = [lo, hi]) :
    (b.get? c = some 0xfe → c + 5 ≤ b.length →
      stringHeader b (c : Int)
        = .val (((lo.val + hi.val * 256 : Nat) : Int), ((c + 5 : Nat) : Int))) ∧
    (b.get? c = some 0xff → c + 9 ≤ b.length →
      stringHeader b (c : Int)
        = .val (((lo.val + hi.val * 256 : Nat) : Int), ((c + 9 : Nat) : Int))) ∧
    lo.val + hi.val * 256 < 65536 ∧
    (∀ (b1 : List Byte) (pidx length pidx1 : Int),
      stringHeader b1 pidx = .val (length, pidx1) → 0 ≤ length ∧ length < 65536) := by
  refine ⟨fun htag hfit => ?_, fun htag hfit => ?_, ?_, stringHeader_bound⟩
  · unfold stringHeader
    rw [index_eq_get? _ _ (by omega), htag]
    dsimp only
    rw [if_neg (by decide), if_pos (by decide)]
    exact lengthField_run b c 5 lo hi hlen (by omega) hfield hfit
  · unfold stringHeader
    rw [index_eq_get? _ _ (by omega), htag]
    dsimp only
    rw [if_neg (by decide), if_neg (by decide), if_pos (by decide)]
    exact lengthField_run b c 9 lo hi hlen (by omega) hfield hfit
  · have := lo.isLt
    have := hi.isLt
    omega

/-- The stream `fe 02 00 09 09 61 62 00` at cursor 0: length 2, `pidx` 5. -/
theorem stringHeader_wide_tags_witness :
    stringHeader [0xfe, 2, 0, 9, 9, 97, 98, 0] ((0 : Nat) : Int)
      = .val ((((2 : Byte).val + (0 : Byte).val * 256 : Nat) : Int), ((0 + 5 : Nat) : Int)) :=
  (stringHeader_wide_tags [0xfe, 2, 0, 9, 9, 97, 98, 0] 0 2 0 (by decide) rfl).1 rfl
    (by decide)

/-! ## The parameter cursor -/

theorem slice_some_bounds {α : Type} (s : List α) (lo hi : Int) (x : List α)
    (h : slice s lo hi = some x) : 0 ≤ lo ∧ lo ≤ hi ∧ hi ≤ (s.length : Int) := by
  unfold slice at h
  split at h
  · assumption
  · cases h

theorem wrapInt_isInt64 (x : Int) : isInt64 (wrapInt x) := by
  unfold isInt64 wrapInt
  omega

theorem calloc_cursor (H : Host) (vm : VM) :
    (calloc H vm).vm.envFunc.envFuncParamIdx = vm.envFunc.envFuncParamIdx := by
  unfold calloc
  split
  · simp only
    split
    · rfl
    · simp only [Outcome.vm, restoreAndPush_envFunc]
  · rfl

theorem malloc_cursor (H : Host) (vm : VM) :
    (malloc H vm).vm.envFunc.envFuncParamIdx = vm.envFunc.envFuncParamIdx := by
  unfold malloc
  split
  · simp only
    split
    · rfl
    · simp only [Outcome.vm, restoreAndPush_envFunc]
  · rfl

theorem arrayLen_cursor (vm : VM) :
    (arrayLen vm).vm.envFunc.envFuncParamIdx = vm.envFunc.envFuncParamIdx := by
  unfold arrayLen
  split
  · simp only [Outcome.vm, restoreAndPush_envFunc]
  · rfl

theorem memcpy_cursor (vm : VM) :
    (memcpy vm).vm.envFunc.envFuncParamIdx = vm.envFunc.envFuncParamIdx := by
  unfold memcpy
  split
  · simp only
    split
    · rfl
    · split
      · simp only [Outcome.vm, restoreAndPush_envFunc]
      · rfl
  · rfl

theorem stringcmp_cursor (H : Host) (vm : VM) :
    (stringcmp H vm).vm.envFunc.envFuncParamIdx = vm.envFunc.envFuncParamIdx := by
  unfold stringcmp
  split
  · split
    · simp only [Outcome.vm, restoreAndPush_envFunc]
    · split
      · rfl
      · split
        · rfl
        · simp only [Outcome.vm, restoreAndPush_envFunc]
  · rfl

theorem rawUnmashal_cursor (H : Host) (vm : VM) :
    (rawUnmashal H vm).vm.envFunc.envFuncParamIdx = vm.envFunc.envFuncParamIdx := by
  unfold rawUnmashal
  split
  · split
    · rfl
    · split <;> rfl
  · rfl

theorem jsonUnmashal_cursor (H : Host) (vm : VM) :
    (jsonUnmashal H vm).vm.envFunc.envFuncParamIdx = vm.envFunc.envFuncParamIdx := by
  unfold jsonUnmashal
  split
  · split
    · rfl
    · split
      · rfl
      · split
        · rfl
        · simp only
          split
          · rfl
          · split <;> rfl
  · rfl

theorem jsonMashal_cursor (H : Host) (vm : VM) :
    (jsonMashal H vm).vm.envFunc.envFuncParamIdx = vm.envFunc.envFuncParamIdx := by
  unfold jsonMashal
  split
  · split
    · rfl
    · split
      · rfl
      · rfl
      · split
        · rfl
        · split
          · rfl
          · simp only [Outcome.vm, restoreAndPush_envFunc]
  · rfl

/-- A successful `readInt32Param` advances an in-range cursor by 4; any other outcome
leaves the VM as it was. -/
theorem readInt32Param_cursor (H : Host) (vm : VM) (hc : isInt64 vm.envFunc.envFuncParamIdx) :
    (∃ vm1, readInt32Param H vm = .ok vm1 ∧
        vm1.envFunc.envFuncParamIdx = vm.envFunc.envFuncParamIdx + 4 ∧
        isInt64 vm1.envFunc.envFuncParamIdx) ∨
      ((readInt32Param H vm).returned ≠ some (true, none) ∧ (readInt32Param H vm).vm = vm) := by
  unfold readInt32Param
  split
  · split
    · exact Or.inr ⟨by simp [Outcome.returned], rfl⟩
    · simp only
      split
      · exact Or.inr ⟨by simp [Outcome.returned], rfl⟩
      · split
        · exact Or.inr ⟨by simp [Outcome.returned], rfl⟩
        · rename_i hb
          left
          refine ⟨_, rfl, ?_, ?_⟩
          · rw [restoreAndPush_envFunc]
            simp only
            obtain ⟨l, hs, _⟩ := Option.bind_eq_some.mp hb
            have hbd := slice_some_bounds _ _ _ _ hs
            revert hbd
            unfold isInt64 at hc
            unfold wrapInt
            omega
          · rw [restoreAndPush_envFunc]
            exact wrapInt_isInt64 _
  · exact Or.inr ⟨by simp [Outcome.returned], rfl⟩

/-- A successful `readInt64Param` advances an in-range cursor by 8; any other outcome
leaves the VM as it was. -/
theorem readInt64Param_cursor (H : Host) (vm : VM) (hc : isInt64 vm.envFunc.envFuncParamIdx) :
    (∃ vm1, readInt64Param H vm = .ok vm1 ∧
        vm1.envFunc.envFuncParamIdx = vm.envFunc.envFuncParamIdx + 8 ∧
        isInt64 vm1.envFunc.envFuncParamIdx) ∨
      ((readInt64Param H vm).returned ≠ some (true, none) ∧ (readInt64Param H vm).vm = vm) := by
  unfold readInt64Param
  split
  · split
    · exact Or.inr ⟨by simp [Outcome.returned], rfl⟩
    · simp only
      split
      · exact Or.inr ⟨by simp [Outcome.returned], rfl⟩
      · split
        · exact Or.inr ⟨by simp [Outcome.returned], rfl⟩
        · rename_i hb
          left
          refine ⟨_, rfl, ?_, ?_⟩
          · rw [restoreAndPush_envFunc]
            simp only
            obtain ⟨l, hs, _⟩ := Option.bind_eq_some.mp hb
            have hbd := slice_some_bounds _ _ _ _ hs
            revert hbd
            unfold isInt64 at hc
            unfold wrapInt
            omega
          · rw [restoreAndPush_envFunc]
            exact wrapInt_isInt64 _
  · exact Or.inr ⟨by simp [Outcome.returned], rfl⟩

/-- A successful `readStringParam` advances an in-range cursor by at least 1, to an
in-range value; any other outcome leaves the VM as it was. -/
theorem readStringParam_cursor (H : Host) (vm : VM)
    (hc : isInt64 vm.envFunc.envFuncParamIdx) :
    (∃ vm1, readStringParam H vm = .ok vm1 ∧
        vm.envFunc.envFuncParamIdx + 1 ≤ vm1.envFunc.envFuncParamIdx ∧
        isInt64 vm1.envFunc.envFuncParamIdx) ∨
      ((readStringParam H vm).returned ≠ some (true, none) ∧
        (readStringParam H vm).vm = vm) := by
  unfold readStringParam
  split
  · split
    · exact Or.inr ⟨by simp [Outcome.returned], rfl⟩
    · split
      · exact Or.inr ⟨by simp [Outcome.returned], rfl⟩
      · exact Or.inr ⟨by simp [Outcome.returned], rfl⟩
      · split
        · exact Or.inr ⟨by simp [Outcome.returned], rfl⟩
        · simp only
          split
          · exact Or.inr ⟨by simp [Outcome.returned], rfl⟩
          · split
            · exact Or.inr ⟨by simp [Outcome.returned], rfl⟩
            · rename_i hs _ _ _ _
              left
              refine ⟨_, rfl, ?_, ?_⟩
              · rw [restoreAndPush_envFunc]
                simp only
                have hbd := slice_some_bounds _ _ _ _ hs
                have hw := wrapInt_isInt64 (vm.envFunc.envFuncParamIdx + 1)
                revert hbd hw
                unfold isInt64 at hc ⊢
                generalize wrapInt (_ + wrapInt _) = pidx
                unfold wrapInt
                omega
              · rw [restoreAndPush_envFunc]
                exact wrapInt_isInt64 _
  · exact Or.inr ⟨by simp [Outcome.returned], rfl⟩

/-- One invocation does not decrease an in-range cursor and keeps it in range. -/
theorem invocation_cursor (H : Host) (vm vm1 : VM) (hstep : invocation H vm vm1)
    (hc : isInt64 vm.envFunc.envFuncParamIdx) :
    vm.envFunc.envFuncParamIdx ≤ vm1.envFunc.envFuncParamIdx ∧
      isInt64 vm1.envFunc.envFuncParamIdx := by
  obtain ⟨pre, h, hmem, hpre, rfl⟩ := hstep
  rw [← hpre] at hc ⊢
  have hsame : ∀ o : Outcome, o.vm.envFunc.envFuncParamIdx = pre.envFunc.envFuncParamIdx →
      pre.envFunc.envFuncParamIdx ≤ o.vm.envFunc.envFuncParamIdx ∧
        isInt64 o.vm.envFunc.envFuncParamIdx := by
    intro o ho
    rw [ho]
    exact ⟨le_refl _, hc⟩
  simp only [readers, otherBuiltins, List.cons_append, List.nil_append, List.mem_cons,
    List.mem_singleton, List.not_mem_nil, or_false] at hmem
  rcases hmem with rfl | rfl | rfl | rfl | rfl | rfl | rfl | rfl | rfl | rfl | rfl
  · rcases readInt32Param_cursor H pre hc with ⟨v, hv, h1, h2⟩ | ⟨_, h2⟩
    · rw [hv]
      exact ⟨by simp only [Outcome.vm]; omega, h2⟩
    · exact hsame _ (by rw [h2])
  · rcases readInt64Param_cursor H pre hc with ⟨v, hv, h1, h2⟩ | ⟨_, h2⟩
    · rw [hv]
      exact ⟨by simp only [Outcome.vm]; omega, h2⟩
    · exact hsame _ (by rw [h2])
  · rcases readStringParam_cursor H pre hc with ⟨v, hv, h1, h2⟩ | ⟨_, h2⟩
    · rw [hv]
      exact ⟨by simp only [Outcome.vm]; omega, h2⟩
    · exact hsame _ (by rw [h2])
  · exact hsame _ (calloc_cursor H pre)
  · exact hsame _ (malloc_cursor H pre)
  · exact hsame _ (arrayLen_cursor pre)
  · exact hsame _ (memcpy_cursor pre)
  · exact hsame _ (stringcmp_cursor H pre)
  · exact hsame _ (rawUnmashal_cursor H pre)
  · exact hsame _ (jsonUnmashal_cursor H pre)
  · exact hsame _ (jsonMashal_cursor H pre)

/-- Along any sequence of invocations an in-range cursor does not decrease. -/
theorem invocations_cursor (H : Host) (vm0 vm : VM)
    (hseq : Relation.ReflTransGen (invocation H) vm0 vm)
    (hc : isInt64 vm0.envFunc.envFuncParamIdx) :
    vm0.envFunc.envFuncParamIdx ≤ vm.envFunc.envFuncParamIdx ∧
      isInt64 vm.envFunc.envFuncParamIdx := by
  induction hseq with
  | refl => exact ⟨le_refl _, hc⟩
  | tail _ hstep ih =>
    have := invocation_cursor H _ _ hstep ih.2
    exact ⟨le_trans ih.1 this.1, this.2⟩

/-- C19: `paramCursor` is monotonic.  With the cursor a Go `int`: a successful
`readInt32Param`, `readInt64Param`, `readStringParam` increases it by 4, by 8, by at
least 1; a call of them that does not succeed leaves it as it was; `calloc`, `malloc`,
`arrayLen`, `memcpy`, `strcmp`, `rawUnmashal`, `jsonUnmashal`, `jsonMashal` never change
it; so along any sequence of handler invocations the cursor does not decrease, and
started from 0 it is never negative. -/
theorem paramCursor_monotonic (H : Host) :
    (∀ vm vm1 : VM, isInt64 vm.envFunc.envFuncParamIdx →
      (readInt32Param H vm = .ok vm1 →
        vm1.envFunc.envFuncParamIdx = vm.envFunc.envFuncParamIdx + 4) ∧
      (readInt64Param H vm = .ok vm1 →
        vm1.envFunc.envFuncParamIdx = vm.envFunc.envFuncParamIdx + 8) ∧
      (readStringParam H vm = .ok vm1 →
        vm.envFunc.envFuncParamIdx + 1 ≤ vm1.envFunc.envFuncParamIdx)) ∧
    (∀ vm : VM, isInt64 vm.envFunc.envFuncParamIdx → ∀ h ∈ readers H,
      (h vm).returned ≠ some (true, none) →
        (h vm).vm.envFunc.envFuncParamIdx = vm.envFunc.envFuncParamIdx) ∧
    (∀ vm : VM, ∀ h ∈ otherBuiltins H,
      (h vm).vm.envFunc.envFuncParamIdx = vm.envFunc.envFuncParamIdx) ∧
    (∀ vm0 vm : VM, Relation.ReflTransGen (invocation H) vm0 vm →
      isInt64 vm0.envFunc.envFuncParamIdx →
        vm0.envFunc.envFuncParamIdx ≤ vm.envFunc.envFuncParamIdx) ∧
    (∀ vm0 vm : VM, Relation.ReflTransGen (invocation H) vm0 vm →
      vm0.envFunc.envFuncParamIdx = 0 → 0 ≤ vm.envFunc.envFuncParamIdx) := by
  refine ⟨fun vm vm1 hc => ⟨fun h => ?_, fun h => ?_, fun h => ?_⟩, fun vm hc h hmem hfail => ?_,
    fun vm h hmem => ?_, fun vm0 vm hseq hc => (invocations_cursor H vm0 vm hseq hc).1,
    fun vm0 vm hseq h0 => ?_⟩
  · rcases readInt32Param_cursor H vm hc with ⟨v, hv, h1, _⟩ | ⟨hn, _⟩
    · rw [h] at hv; cases hv; exact h1
    · rw [h] at hn; exact absurd rfl hn
  · rcases readInt64Param_cursor H vm hc with ⟨v, hv, h1, _⟩ | ⟨hn, _⟩
    · rw [h] at hv; cases hv; exact h1
    · rw [h] at hn; exact absurd rfl hn
  · rcases readStringParam_cursor H vm hc with ⟨v, hv, h1, _⟩ | ⟨hn, _⟩
    · rw [h] at hv; cases hv; exact h1
    · rw [h] at hn; exact absurd rfl hn
  · simp only [readers, List.mem_cons, List.mem_singleton, List.not_mem_nil, or_false] at hmem
    rcases hmem with rfl | rfl | rfl
    · rcases readInt32Param_cursor H vm hc with ⟨v, hv, _, _⟩ | ⟨_, h2⟩
      · rw [hv] at hfail; exact absurd rfl hfail
      · rw [h2]
    · rcases readInt64Param_cursor H vm hc with ⟨v, hv, _, _⟩ | ⟨_, h2⟩
      · rw [hv] at hfail; exact absurd rfl hfail
      · rw [h2]
    · rcases readStringParam_cursor H vm hc with ⟨v, hv, _, _⟩ | ⟨_, h2⟩
      · rw [hv] at hfail; exact absurd rfl hfail
      · rw [h2]
  · simp only [otherBuiltins, List.mem_cons, List.mem_singleton, List.not_mem_nil,
      or_false] at hmem
    rcases hmem with rfl | rfl | rfl | rfl | rfl | rfl | rfl | rfl
    · exact calloc_cursor H vm
    · exact malloc_cursor H vm
    · exact arrayLen_cursor vm
    · exact memcpy_cursor vm
    · exact stringcmp_cursor H vm
    · exact rawUnmashal_cursor H vm
    · exact jsonUnmashal_cursor H vm
    · exact jsonMashal_cursor H vm
  · have := invocations_cursor H vm0 vm hseq (by rw [h0]; unfold isInt64; omega)
    rw [h0] at this
    exact this.1

/-- Reading a 32-bit parameter from the stream `78 56 34 12 01 00 00 00` moves the
cursor from 0 to 4. -/
theorem paramCursor_monotonic_witness :
    ({ heap := vmInts.heap, ctx := { stack := [305419896], frame := 0 },
       envFunc := { envFuncCtx := ctx0, envFuncParam := [0], envFuncRtn := true,
                    envFuncParamIdx := 4 } } : VM).envFunc.envFuncParamIdx
      = vmInts.envFunc.envFuncParamIdx + 4 :=
  ((paramCursor_monotonic demoHost).1 vmInts
    { heap := vmInts.heap, ctx := { stack := [305419896], frame := 0 },
      envFunc := { envFuncCtx := ctx0, envFuncParam := [0], envFuncRtn := true,
                   envFuncParamIdx := 4 } }
    ⟨by decide, by decide⟩).1 (by decide)

end EnvFunc
